import Mathlib

/-!
Verification of the `libpcre-sys` build script (`build.rs`).

The script probes `pkg_config` for an installed libpcre (>= 8.20); on a miss
it extracts the bundled `pcre-8.37.tar.bz2` under `OUT_DIR`, restoring
directory structure and (on unix) permission bits, then drives either the
autotools pipeline (`autoreconf`, `./configure`, `make install`) or the CMake
pipeline, and finally prints a `cargo:rustc-link-search=native=` directive.

The embedding below models paths as lists of components (a component is one
chunk of the string between `/` separators, exactly as produced by Rust's
`str::split('/')` and consumed by `PathBuf::push`).  Filesystem and process
effects are factored through an explicit interface so that both an arbitrary
failure oracle and a concrete functional filesystem instantiate the same
transcription of the extraction loop.
-/

namespace PcreBuild

/-- A filesystem path, as the list of components pushed onto a `PathBuf`.
An empty final component models the trailing separator produced by
`Path::join("")`. -/
abbrev Path := List String

/-- Render a path the way `Path::display` renders the corresponding
`PathBuf`: components interleaved with `/`. -/
def renderPath : Path → String
  | [] => ""
  | [c] => c
  | c :: cs => c ++ "/" ++ renderPath cs

/-- OS-level path identity: a trailing (or repeated) separator does not
change which filesystem object a path denotes, so empty components are
dropped when a path is used as a filesystem key. -/
def normP (p : Path) : Path := p.filter (fun c => ¬ c = "")

/-- The kinds of `std::io::Error` the script distinguishes
(`ErrorKind::AlreadyExists`, `ErrorKind::NotFound`, everything else). -/
inductive IOErrorKind where
  | alreadyExists
  | notFound
  | other
deriving DecidableEq

/-- An `std::io::Error`: a kind plus its `Display` rendering. -/
structure IOError where
  kind : IOErrorKind
  msg : String
deriving DecidableEq

/-- Result of one OS call (`io::Result<()>` shape). -/
inductive OsResult where
  | ok
  | err (e : IOError)
deriving DecidableEq

/-- One archive entry as handed out by the tar codec: its `filename()`
string, its `mode()` bits and its content bytes. -/
structure Entry where
  name : String
  mode : Nat
  content : List Nat
deriving DecidableEq

/-- Rust's `str::split('/')` on the character list of a string: always returns at
least one (possibly empty) chunk; a trailing separator yields a trailing
empty chunk. -/
def splitSlash : List Char → List (List Char)
  | [] => [[]]
  | c :: cs =>
    let r := splitSlash cs
    if c = '/' then [] :: r
    else
      match r with
      | [] => [[c]]
      | y :: ys => (c :: y) :: ys

/-- The `path_parts` vector of the script: `filename.split('/').collect()`. -/
def entryComponents (name : String) : List String :=
  (splitSlash name.data).map (fun cs => String.mk cs)

/-- The shadowing `filename` of the script: `path_parts.pop().unwrap()`
(the split list is never empty, so the `unwrap` always succeeds). -/
def entryFinal (name : String) : String :=
  (entryComponents name).getLastD ""

/-- The `path_parts` left after the pop. -/
def entryParents (name : String) : List String :=
  (entryComponents name).dropLast

/-- The `parent_pathbuf` of the script: `Path::new(&out_dir).join(PathBuf::from_iter(path_parts))`. -/
def parentPath (outDir : Path) (name : String) : Path :=
  outDir ++ entryParents name

/-- The `out_pathbuf` of the script: `parent_pathbuf.join(&filename)` (joining the possibly
empty final component). -/
def entryDest (outDir : Path) (name : String) : Path :=
  parentPath outDir name ++ [entryFinal name]

/-- The `created_paths : BTreeSet<OsString>` of the script, with
`BTreeSet::insert`'s return value: `true` iff the path was newly inserted. -/
def setInsert (s : List Path) (p : Path) : Bool × List Path :=
  if p ∈ s then (false, s) else (true, p :: s)

/-- The OS calls the extraction loop can issue, recorded for trace-level
properties. -/
inductive OsCall where
  | createDirAll (p : Path)
  | createDir (p : Path)
  | openFile (p : Path)
  | copyFile (p : Path)
  | chmod (p : Path) (mode : Nat)
deriving DecidableEq

/-- The filesystem effects used by the extraction loop, over an abstract
state `S`: `fs::create_dir_all`, `fs::create_dir`, `OpenOptions::new()
.write(true).create(true).open(..)`, `io::copy` into the opened file, and
`libc::chmod`. -/
structure OsIface (S : Type) where
  createDirAll : S → Path → S × OsResult
  createDir : S → Path → S × OsResult
  openFile : S → Path → S × OsResult
  copyData : S → Path → List Nat → S × OsResult
  chmod : S → Path → Nat → S × OsResult

/-- The ways the script can `panic!` (or `unwrap` an `Err`) while
extracting; each constructor corresponds to one panic site. -/
inductive Panic where
  | createDirAllFailed (path : Path) (e : IOError)
  | createDirFailed (path : Path) (e : IOError)
  | openUnwrap (e : IOError)
  | copyFailed (name : String) (path : Path) (e : IOError)
  | toolPanic (msg : String)
deriving DecidableEq

/-- The human-readable diagnostic each panic produces, following the exact
format strings of the script (the `unwrap` case produces the generic
message of `Result::unwrap`). -/
def Panic.message : Panic → String
  | .createDirAllFailed p e =>
      "failed to create the " ++ renderPath p ++ " directory and parents: " ++ e.msg
  | .createDirFailed p e =>
      "failed to create the " ++ renderPath p ++ " directory: " ++ e.msg
  | .openUnwrap e =>
      "called `Result::unwrap()` on an `Err` value: " ++ e.msg
  | .copyFailed n p e =>
      "failed to extract " ++ n ++ " to " ++ renderPath p ++ ": " ++ e.msg
  | .toolPanic m => m

/-- Extraction-loop state: the `created_paths` set plus the abstract
filesystem state. -/
structure ExtState (S : Type) where
  created : List Path
  fs : S
deriving DecidableEq

/-- Sequencing of traced, fallible steps: run the first step, and on
success feed its state to the rest, concatenating the call traces. -/
def andThen (a : List OsCall × Except Panic α) (f : α → List OsCall × Except Panic β) :
    List OsCall × Except Panic β :=
  match a with
  | (t, .error p) => (t, .error p)
  | (t, .ok x) =>
    let (t', r) := f x
    (t ++ t', r)

/-- Lines 57–65 of the script: if `path_parts` is non-empty and the parent
path is newly recorded in `created_paths`, call `fs::create_dir_all`,
ignoring an `AlreadyExists` failure and panicking on any other failure. -/
def stepParent (F : OsIface S) (outDir : Path) (st : ExtState S) (name : String) :
    List OsCall × Except Panic (ExtState S) :=
  let parts := entryParents name
  let parentP := outDir ++ parts
  if parts.isEmpty then ([], .ok st)
  else
    match setInsert st.created parentP with
    | (false, created') => ([], .ok ⟨created', st.fs⟩)
    | (true, created') =>
      let (s', res) := F.createDirAll st.fs parentP
      match res with
      | .ok => ([.createDirAll parentP], .ok ⟨created', s'⟩)
      | .err e =>
        if e.kind = .alreadyExists then ([.createDirAll parentP], .ok ⟨created', s'⟩)
        else ([.createDirAll parentP], .error (.createDirAllFailed parentP e))

/-- Lines 67–81 of the script: for an empty final component, create the
entry's own directory under the same record-then-tolerate rule; otherwise
open the destination with write+create (no truncate), `unwrap`ping a
failure, and copy the entry content into it, panicking on a copy failure. -/
def stepNode (F : OsIface S) (outDir : Path) (st : ExtState S) (e : Entry) :
    List OsCall × Except Panic (ExtState S) :=
  let fname := entryFinal e.name
  let outP := entryDest outDir e.name
  if fname = "" then
    match setInsert st.created outP with
    | (false, created') => ([], .ok ⟨created', st.fs⟩)
    | (true, created') =>
      let (s', res) := F.createDir st.fs outP
      match res with
      | .ok => ([.createDir outP], .ok ⟨created', s'⟩)
      | .err er =>
        if er.kind = .alreadyExists then ([.createDir outP], .ok ⟨created', s'⟩)
        else ([.createDir outP], .error (.createDirFailed outP er))
  else
    let (s', res) := F.openFile st.fs outP
    match res with
    | .err er => ([.openFile outP], .error (.openUnwrap er))
    | .ok =>
      let (s'', res2) := F.copyData s' outP e.content
      match res2 with
      | .err er => ([.openFile outP, .copyFile outP], .error (.copyFailed fname outP er))
      | .ok => ([.openFile outP, .copyFile outP], .ok ⟨st.created, s''⟩)

/-- Lines 82–91 of the script: on unix, `libc::chmod` the destination with
the entry's mode; the call's return value is discarded. -/
def stepChmod (F : OsIface S) (isUnix : Bool) (outDir : Path) (st : ExtState S) (e : Entry) :
    List OsCall × Except Panic (ExtState S) :=
  if isUnix then
    let outP := entryDest outDir e.name
    let (s', _res) := F.chmod st.fs outP e.mode
    ([.chmod outP e.mode], .ok ⟨st.created, s'⟩)
  else ([], .ok st)

/-- Processing of one archive entry (the body of the `for file in
archive.files_mut()` loop, lines 50–92). -/
def processEntry (F : OsIface S) (isUnix : Bool) (outDir : Path) (st : ExtState S) (e : Entry) :
    List OsCall × Except Panic (ExtState S) :=
  andThen (stepParent F outDir st e.name) fun st1 =>
    andThen (stepNode F outDir st1 e) fun st2 =>
      stepChmod F isUnix outDir st2 e

/-- The whole extraction loop over the entry sequence: a panic aborts the
run, nothing after the failing entry executes. -/
def runEntries (F : OsIface S) (isUnix : Bool) (outDir : Path) :
    ExtState S → List Entry → List OsCall × Except Panic (ExtState S)
  | st, [] => ([], .ok st)
  | st, e :: es =>
    match processEntry F isUnix outDir st e with
    | (t, .error p) => (t, .error p)
    | (t, .ok st') =>
      let (t', r) := runEntries F isUnix outDir st' es
      (t ++ t', r)

/-- One extraction run: `created_paths` starts empty (line 49). -/
def runExtract (F : OsIface S) (isUnix : Bool) (outDir : Path) (s0 : S) (es : List Entry) :
    List OsCall × Except Panic (ExtState S) :=
  runEntries F isUnix outDir ⟨[], s0⟩ es

/-- An `OsIface` whose outcomes are dictated call-by-call by an oracle:
used to study the loop's behaviour under arbitrary OS failures. -/
def oracleIface (O : OsCall → OsResult) : OsIface Unit where
  createDirAll := fun _ p => ((), O (.createDirAll p))
  createDir := fun _ p => ((), O (.createDir p))
  openFile := fun _ p => ((), O (.openFile p))
  copyData := fun _ p _ => ((), O (.copyFile p))
  chmod := fun _ p m => ((), O (.chmod p m))

/-! ## A concrete functional filesystem

To settle the functional claims (final permission bits, residual bytes of a
non-truncating open) the same loop is instantiated with a filesystem value:
a finite map from normalized paths to nodes.  A node's mode is `none` until
a `chmod` sets it (freshly created files and directories carry the ambient
default, which the archive does not determine). -/

/-- A filesystem node: a regular file with content bytes, or a directory. -/
inductive Node where
  | file (content : List Nat) (mode : Option Nat)
  | dir (mode : Option Nat)
deriving DecidableEq

/-- The mode bits recorded on a node, if a `chmod` has set them. -/
def Node.modeBits : Node → Option Nat
  | .file _ m => m
  | .dir m => m

/-- A filesystem: an association list keyed by normalized paths. -/
abbrev FS := List (Path × Node)

/-- Look up the node a path denotes (keys are compared after
normalization). -/
def fsGet : FS → Path → Option Node
  | [], _ => none
  | (q, n) :: fs, p => if q = normP p then some n else fsGet fs p

/-- Store a node at a path, replacing the first binding of the same
normalized key, else appending. -/
def fsSet : FS → Path → Node → FS
  | [], p, n => [(normP p, n)]
  | (q, m) :: fs, p, n =>
    if q = normP p then (q, n) :: fs else (q, m) :: fsSet fs p n

/-- The recursion of `fs::create_dir_all`: walk the components, creating
each missing prefix as a directory; fail if a prefix exists as a regular
file. -/
def mkDirsGo : FS → Path → List String → FS × OsResult
  | fs, _, [] => (fs, .ok)
  | fs, pre, c :: cs =>
    let cur := pre ++ [c]
    match fsGet fs cur with
    | some (.dir _) => mkDirsGo fs cur cs
    | some (.file _ _) => (fs, .err ⟨.other, "Not a directory"⟩)
    | none => mkDirsGo (fsSet fs cur (.dir none)) cur cs

/-- Semantics of `fs::create_dir_all` on the functional filesystem. -/
def createDirAllFS (fs : FS) (p : Path) : FS × OsResult :=
  mkDirsGo fs [] (normP p)

/-- Semantics of `fs::create_dir` on the functional filesystem: `AlreadyExists` if the
path exists, `NotFound` if the parent is missing. -/
def createDirFS (fs : FS) (p : Path) : FS × OsResult :=
  let np := normP p
  match fsGet fs np with
  | some _ => (fs, .err ⟨.alreadyExists, "File exists"⟩)
  | none =>
    match np.dropLast with
    | [] => (fsSet fs np (.dir none), .ok)
    | q :: qs =>
      match fsGet fs (q :: qs) with
      | some (.dir _) => (fsSet fs np (.dir none), .ok)
      | some (.file _ _) => (fs, .err ⟨.other, "Not a directory"⟩)
      | none => (fs, .err ⟨.notFound, "No such file or directory"⟩)

/-- Semantics of `OpenOptions::new().write(true).create(true).open(..)`: creates an
empty file when absent, keeps the existing content untouched when present
(no `truncate`). -/
def openFileFS (fs : FS) (p : Path) : FS × OsResult :=
  let np := normP p
  match fsGet fs np with
  | some (.file _ _) => (fs, .ok)
  | some (.dir _) => (fs, .err ⟨.other, "Is a directory"⟩)
  | none =>
    match np.dropLast with
    | [] => (fsSet fs np (.file [] none), .ok)
    | q :: qs =>
      match fsGet fs (q :: qs) with
      | some (.dir _) => (fsSet fs np (.file [] none), .ok)
      | some (.file _ _) => (fs, .err ⟨.other, "Not a directory"⟩)
      | none => (fs, .err ⟨.notFound, "No such file or directory"⟩)

/-- Semantics of `io::copy` of the entry's bytes into the file just opened: the bytes
are written from offset zero, so any existing bytes past the copied length
survive. -/
def copyDataFS (fs : FS) (p : Path) (data : List Nat) : FS × OsResult :=
  match fsGet fs (normP p) with
  | some (.file old m) => (fsSet fs p (.file (data ++ old.drop data.length) m), .ok)
  | _ => (fs, .err ⟨.other, "bad file handle"⟩)

/-- Semantics of `libc::chmod`, with an environment oracle `ok` saying which paths the
OS lets the process chmod (the script never looks at the result). -/
def chmodFS (ok : Path → Bool) (fs : FS) (p : Path) (mode : Nat) : FS × OsResult :=
  if ok p then
    match fsGet fs (normP p) with
    | some (.file c _) => (fsSet fs p (.file c (some mode)), .ok)
    | some (.dir _) => (fsSet fs p (.dir (some mode)), .ok)
    | none => (fs, .err ⟨.notFound, "No such file or directory"⟩)
  else (fs, .err ⟨.other, "Operation not permitted"⟩)

/-- The concrete filesystem instantiation of the extraction effects. -/
def fsIface (ok : Path → Bool) : OsIface FS where
  createDirAll := createDirAllFS
  createDir := createDirFS
  openFile := openFileFS
  copyData := copyDataFS
  chmod := chmodFS ok

/-! ## Toolchain pipelines (lines 94–189) -/

/-- The `BUNDLED_PCRE_VERSION` constant. -/
def bundledPcreVersion : String := "8.37"

/-- The `pcre_pathbuf` of the script: the extracted source root under `OUT_DIR`. -/
def pcrePath (outDir : Path) : Path :=
  outDir ++ ["pcre-" ++ bundledPcreVersion]

/-- An external process invocation: program, argument vector, working
directory. -/
structure Cmd where
  program : String
  args : List String
  cwd : Path
deriving DecidableEq

/-- The observable outcome of `Command::status()`: an OS error (whose kind
may be `NotFound`), or an exit status reduced to `status.success()`. -/
inductive CmdResult where
  | execErr (e : IOError)
  | exited (success : Bool)
deriving DecidableEq

/-- The `autoreconf` step (lines 97–110). -/
def autoreconfCmd (outDir : Path) : Cmd :=
  ⟨"autoreconf", [], pcrePath outDir⟩

/-- The `./configure` step with its fixed flags (lines 112–129). -/
def configureCmd (outDir : Path) : Cmd :=
  ⟨"./configure",
    ["--with-pic", "--disable-shared", "--disable-cpp", "--enable-jit",
     "--enable-utf", "--enable-unicode-properties",
     "--prefix=" ++ renderPath outDir],
    pcrePath outDir⟩

/-- The `make install` step (lines 131–145). -/
def makeInstallCmd (outDir : Path) : Cmd :=
  ⟨"make", ["install"], pcrePath outDir⟩

/-- The `cmake .` configure step with its fixed options (lines 149–171). -/
def cmakeConfigureCmd (outDir : Path) : Cmd :=
  ⟨"cmake",
    [".", "-DBUILD_SHARED_LIBS=OFF", "-DPCRE_BUILD_PCRECPP=OFF",
     "-DPCRE_BUILD_PCREGREP=OFF", "-DPCRE_BUILD_TESTS=OFF",
     "-DPCRE_BUILD_PCRE8=ON", "-DPCRE_SUPPORT_JIT=ON",
     "-DPCRE_SUPPORT_UTF=ON", "-DPCRE_SUPPORT_UNICODE_PROPERTIES=ON"],
    pcrePath outDir⟩

/-- The `cmake --build .` step (lines 173–186). -/
def cmakeBuildCmd (outDir : Path) : Cmd :=
  ⟨"cmake", ["--build", "."], pcrePath outDir⟩

/-- The unix (autotools) pipeline, lines 96–145: `autoreconf`, then
`./configure`, then `make install`, each gated on the previous step's
success; the result lists the commands actually launched. -/
def posixPipeline (CO : Cmd → CmdResult) (outDir : Path) :
    List Cmd × Except Panic Unit :=
  let a := autoreconfCmd outDir
  match CO a with
  | .execErr e =>
    if e.kind = .notFound then
      ([a], .error (.toolPanic
        ("failed to execute `autoreconf`: " ++ e.msg ++ ". Are the Autotools installed?")))
    else ([a], .error (.toolPanic ("failed to execute `autoreconf`: " ++ e.msg)))
  | .exited aOk =>
    if ¬ aOk then ([a], .error (.toolPanic "`autoreconf` did not run successfully."))
    else
      let c := configureCmd outDir
      match CO c with
      | .execErr e =>
        ([a, c], .error (.toolPanic ("failed to execute `./configure`: " ++ e.msg)))
      | .exited cOk =>
        if ¬ cOk then
          ([a, c], .error (.toolPanic "`./configure --with-pic ...` did not run successfully."))
        else
          let m := makeInstallCmd outDir
          match CO m with
          | .execErr e =>
            if e.kind = .notFound then
              ([a, c, m], .error (.toolPanic
                ("failed to execute `make`: " ++ e.msg ++ ". Is GNU Make installed?")))
            else ([a, c, m], .error (.toolPanic ("failed to execute `make`: " ++ e.msg)))
          | .exited mOk =>
            if ¬ mOk then
              ([a, c, m], .error (.toolPanic "`make install` did not run successfully."))
            else ([a, c, m], .ok ())

/-- The non-unix (CMake) pipeline, lines 148–186. -/
def cmakePipeline (CO : Cmd → CmdResult) (outDir : Path) :
    List Cmd × Except Panic Unit :=
  let c := cmakeConfigureCmd outDir
  match CO c with
  | .execErr e =>
    if e.kind = .notFound then
      ([c], .error (.toolPanic
        ("failed to execute `cmake`: " ++ e.msg ++ ". Is CMake installed?")))
    else ([c], .error (.toolPanic ("failed to execute `cmake`: " ++ e.msg)))
  | .exited cOk =>
    if ¬ cOk then
      ([c], .error (.toolPanic "`cmake . -DBUILD_SHARED_LIBS=OFF ...` did not run successfully."))
    else
      let b := cmakeBuildCmd outDir
      match CO b with
      | .execErr e =>
        if e.kind = .notFound then
          ([c, b], .error (.toolPanic
            ("failed to execute `cmake`: " ++ e.msg ++ ". Is CMake installed?")))
        else ([c, b], .error (.toolPanic ("failed to execute `cmake`: " ++ e.msg)))
      | .exited bOk =>
        if ¬ bOk then
          ([c, b], .error (.toolPanic "`cmake --build .` did not run successfully."))
        else ([c, b], .ok ())

/-! ## The whole build script (`main`) -/

/-- The outcome of the `pkg_config` probe (line 31): a version match with
its `link_paths`, or any error, which triggers the bundled build. -/
inductive ProbeResult where
  | found (linkPaths : List Path)
  | notFound
deriving DecidableEq

/-- Everything `main` observably does: the `cargo:rustc-link-search`
directives printed, the extraction OS calls issued, the external commands
launched, and whether the script panicked. -/
structure MainResult where
  directives : List Path
  osCalls : List OsCall
  cmds : List Cmd
  outcome : Except Panic Unit

/-- The `main` function (lines 30–192): probe `libpcre >= 8.20`; on success print a
directive per link path; on a miss extract the bundled archive into
`OUT_DIR`, run the platform pipeline, and print a single directive:
`OUT_DIR/lib` for the unix pipeline, the source root for the CMake one. -/
def mainRun (probe : String → String → ProbeResult) (F : OsIface S)
    (CO : Cmd → CmdResult) (isUnix : Bool) (entries : List Entry)
    (outDir : Path) (s0 : S) : MainResult :=
  match probe "libpcre" "8.20" with
  | .found ps => ⟨ps, [], [], .ok ()⟩
  | .notFound =>
    match runExtract F isUnix outDir s0 entries with
    | (t, .error p) => ⟨[], t, [], .error p⟩
    | (t, .ok _) =>
      if isUnix then
        match posixPipeline CO outDir with
        | (cs, .error p) => ⟨[], t, cs, .error p⟩
        | (cs, .ok _) => ⟨[outDir ++ ["lib"]], t, cs, .ok ()⟩
      else
        match cmakePipeline CO outDir with
        | (cs, .error p) => ⟨[], t, cs, .error p⟩
        | (cs, .ok _) => ⟨[pcrePath outDir], t, cs, .ok ()⟩

/-! ## Path resolution (for traversal claims)

Destination paths are built by joining the archive entry's components
verbatim under the output root; `..` components are resolved only by the
operating system when the path is used.  `resolveComps` mirrors that OS
resolution at the component level. -/

/-- One step of OS path resolution: `..` pops a component, `.` and empty
components are skipped. -/
def resolveStep (acc : List String) (c : String) : List String :=
  if c = ".." then acc.dropLast
  else if c = "." ∨ c = "" then acc
  else acc ++ [c]

/-- Resolve a component list the way the OS resolves the rendered path. -/
def resolveComps (p : Path) : List String :=
  p.foldl resolveStep []

/-- Substring containment, used to state what a diagnostic reports. -/
def strContains (s sub : String) : Prop :=
  sub.data <:+: s.data

instance (s sub : String) : Decidable (strContains s sub) :=
  inferInstanceAs (Decidable (sub.data <:+: s.data))

/-! ## Claim theorems -/

/-- C6: if the `pkg_config` probe for `libpcre >= 8.20` succeeds, the
extractor issues no OS call and the toolchain driver launches no command;
the run emits exactly the probe's link paths as linker-search directives,
and — the probe contract guaranteeing a non-empty path set on success — at
least one directive is emitted. -/
theorem c6_probe_success_short_circuits {S : Type}
    (probe : String → String → ProbeResult) (F : OsIface S)
    (CO : Cmd → CmdResult) (isUnix : Bool) (entries : List Entry)
    (outDir : Path) (s0 : S) (ps : List Path)
    (hp : probe "libpcre" "8.20" = .found ps) (hne : ps ≠ []) :
    (mainRun probe F CO isUnix entries outDir s0).osCalls = [] ∧
    (mainRun probe F CO isUnix entries outDir s0).cmds = [] ∧
    (mainRun probe F CO isUnix entries outDir s0).directives = ps ∧
    (mainRun probe F CO isUnix entries outDir s0).directives ≠ [] := by
  refine ⟨?_, ?_, ?_, ?_⟩ <;> simp only [mainRun, hp]
  exact hne

/-- Witness for C6 at a concrete probe result. -/
theorem c6_witness :
    (mainRun (fun _ _ => .found [["usr", "lib"]]) (oracleIface fun _ => .ok)
        (fun _ => .exited true) true [] ["out"] ()).osCalls = [] ∧
    (mainRun (fun _ _ => .found [["usr", "lib"]]) (oracleIface fun _ => .ok)
        (fun _ => .exited true) true [] ["out"] ()).cmds = [] ∧
    (mainRun (fun _ _ => .found [["usr", "lib"]]) (oracleIface fun _ => .ok)
        (fun _ => .exited true) true [] ["out"] ()).directives = [["usr", "lib"]] ∧
    (mainRun (fun _ _ => .found [["usr", "lib"]]) (oracleIface fun _ => .ok)
        (fun _ => .exited true) true [] ["out"] ()).directives ≠ [] :=
  c6_probe_success_short_circuits _ _ _ _ _ _ _ _ rfl (by decide)

/-- C8: on the bundled-build path (probe miss, extraction succeeded), a
successful unix pipeline makes the run emit exactly one directive, for
`outputRoot/lib`; a successful CMake pipeline makes it emit exactly one
directive, for the extracted source root `pcrePath outputRoot`. -/
theorem c8_bundled_link_search_paths {S : Type}
    (probe : String → String → ProbeResult) (F : OsIface S)
    (CO : Cmd → CmdResult) (entries : List Entry) (outDir : Path) (s0 : S)
    (hp : probe "libpcre" "8.20" = .notFound) :
    (∀ t st cs, runExtract F true outDir s0 entries = (t, .ok st) →
      posixPipeline CO outDir = (cs, .ok ()) →
      (mainRun probe F CO true entries outDir s0).directives = [outDir ++ ["lib"]] ∧
      (mainRun probe F CO true entries outDir s0).directives.length = 1) ∧
    (∀ t st cs, runExtract F false outDir s0 entries = (t, .ok st) →
      cmakePipeline CO outDir = (cs, .ok ()) →
      (mainRun probe F CO false entries outDir s0).directives = [pcrePath outDir] ∧
      (mainRun probe F CO false entries outDir s0).directives.length = 1) := by
  constructor
  · intro t st cs hrun hpipe
    simp only [mainRun, hp, hrun, hpipe, if_pos rfl]
    exact ⟨rfl, rfl⟩
  · intro t st cs hrun hpipe
    simp only [mainRun, hp, hrun, hpipe]
    exact ⟨rfl, rfl⟩

/-- Witness for C8 at a concrete run (empty archive, all tools succeed). -/
theorem c8_witness :
    (mainRun (fun _ _ => .notFound) (oracleIface fun _ => .ok)
        (fun _ => .exited true) true [] ["out"] ()).directives = [["out", "lib"]] ∧
    (mainRun (fun _ _ => .notFound) (oracleIface fun _ => .ok)
        (fun _ => .exited true) false [] ["out"] ()).directives = [["out", "pcre-8.37"]] := by
  have h := c8_bundled_link_search_paths (fun _ _ => .notFound) (oracleIface fun _ => .ok)
    (fun _ => .exited true) [] ["out"] () rfl
  constructor
  · have h1 := (h.1 [] ⟨[], ()⟩ _ rfl rfl).1
    simpa using h1
  · have h2 := (h.2 [] ⟨[], ()⟩ _ rfl rfl).1
    simpa [pcrePath, bundledPcreVersion] using h2

/-- C3: the unix pipeline launches `autoreconf`, `./configure` and
`make install`, in that order, each only after the previous step exited
successfully; when the `autoreconf` executable is missing the run aborts
with the diagnostic telling the operator to install the Autotools, and
neither the configure step nor the install step is ever launched. -/
theorem c3_posix_pipeline_sequencing (CO : Cmd → CmdResult) (outDir : Path) :
    (CO (autoreconfCmd outDir) = .exited true →
      CO (configureCmd outDir) = .exited true →
      CO (makeInstallCmd outDir) = .exited true →
      posixPipeline CO outDir =
        ([autoreconfCmd outDir, configureCmd outDir, makeInstallCmd outDir], .ok ())) ∧
    (configureCmd outDir ∈ (posixPipeline CO outDir).1 →
      CO (autoreconfCmd outDir) = .exited true) ∧
    (makeInstallCmd outDir ∈ (posixPipeline CO outDir).1 →
      CO (autoreconfCmd outDir) = .exited true ∧
      CO (configureCmd outDir) = .exited true) ∧
    (∀ e : IOError, CO (autoreconfCmd outDir) = .execErr e → e.kind = .notFound →
      posixPipeline CO outDir =
        ([autoreconfCmd outDir],
          .error (.toolPanic ("failed to execute `autoreconf`: " ++ e.msg ++
            ". Are the Autotools installed?"))) ∧
      configureCmd outDir ∉ (posixPipeline CO outDir).1 ∧
      makeInstallCmd outDir ∉ (posixPipeline CO outDir).1) := by
  have hac : configureCmd outDir ≠ autoreconfCmd outDir := by
    simp [configureCmd, autoreconfCmd]
  have ham : makeInstallCmd outDir ≠ autoreconfCmd outDir := by
    simp [makeInstallCmd, autoreconfCmd]
  have hmc : makeInstallCmd outDir ≠ configureCmd outDir := by
    simp [makeInstallCmd, configureCmd]
  refine ⟨?_, ?_, ?_, ?_⟩
  · intro ha hc hm
    simp [posixPipeline, ha, hc, hm]
  · intro hmem
    match hA : CO (autoreconfCmd outDir) with
    | .execErr e =>
      simp only [posixPipeline, hA] at hmem
      by_cases hk : e.kind = IOErrorKind.notFound <;>
        simp [hk, hac] at hmem
    | .exited aOk =>
      cases aOk with
      | false => simp [posixPipeline, hA, hac] at hmem
      | true => rfl
  · intro hmem
    match hA : CO (autoreconfCmd outDir) with
    | .execErr e =>
      simp only [posixPipeline, hA] at hmem
      by_cases hk : e.kind = IOErrorKind.notFound <;>
        simp [hk, ham] at hmem
    | .exited aOk =>
      cases aOk with
      | false => simp [posixPipeline, hA, ham] at hmem
      | true =>
        refine ⟨rfl, ?_⟩
        match hC : CO (configureCmd outDir) with
        | .execErr e => simp [posixPipeline, hA, hC, ham, hmc] at hmem
        | .exited cOk =>
          cases cOk with
          | false => simp [posixPipeline, hA, hC, ham, hmc] at hmem
          | true => rfl
  · intro e hA hk
    refine ⟨?_, ?_, ?_⟩ <;> simp [posixPipeline, hA, hk, hac, ham]

/-- Folding the resolver over components none of which is `..`, `.` or
empty just appends them. -/
theorem foldl_resolveStep_clean (l : List String) (acc : List String)
    (h : ∀ c ∈ l, c ≠ ".." ∧ c ≠ "." ∧ c ≠ "") :
    l.foldl resolveStep acc = acc ++ l := by
  induction l generalizing acc with
  | nil => simp
  | cons c cs ih =>
    have hc := h c (List.mem_cons_self c cs)
    have hstep : resolveStep acc c = acc ++ [c] := by
      simp [resolveStep, hc.1, hc.2.1, hc.2.2]
    simp only [List.foldl_cons, hstep]
    rw [ih _ fun d hd => h d (List.mem_cons_of_mem _ hd)]
    simp

/-- Folding the resolver over at least `acc.length` many `..` components
empties the accumulator. -/
theorem foldl_resolveStep_dotdot (k : Nat) (acc : List String) (h : acc.length ≤ k) :
    (List.replicate k "..").foldl resolveStep acc = [] := by
  induction k generalizing acc with
  | zero =>
    have : acc = [] := List.eq_nil_of_length_eq_zero (Nat.le_zero.mp h)
    simp [this]
  | succ k ih =>
    have hstep : resolveStep acc ".." = acc.dropLast := by simp [resolveStep]
    simp only [List.replicate_succ, List.foldl_cons, hstep]
    exact ih _ (by simp [List.length_dropLast]; omega)

/-- C9 counterexample: the entry named `a/../b` contains a `..` segment,
yet its computed destination under output root `out` resolves to
`out/b` — inside the output root — refuting the claim that every entry
with a `..` segment resolves outside the root. -/
theorem c9_counterexample :
    ".." ∈ entryComponents "a/../b" ∧
    resolveComps (entryDest ["out"] "a/../b") = ["out", "b"] ∧
    ["out"] <+: resolveComps (entryDest ["out"] "a/../b") := by decide

/-- C9 (amended): destinations are computed by joining the split segments
directly under the output root with no containment check, so an entry with
enough leading `..` segments yields a destination that resolves outside
the output root (here: strictly more `..` segments than the root has
components, landing on a foreign path `evil`). -/
theorem c9_dotdot_escape (outDir : Path) (name : String)
    (hne : outDir ≠ [])
    (hclean : ∀ c ∈ outDir, c ≠ ".." ∧ c ≠ "." ∧ c ≠ "")
    (hev : "evil" ∉ outDir)
    (hsplit : entryComponents name = List.replicate (outDir.length + 1) ".." ++ ["evil"]) :
    ".." ∈ entryComponents name ∧
    entryDest outDir name = outDir ++ List.replicate (outDir.length + 1) ".." ++ ["evil"] ∧
    resolveComps (entryDest outDir name) = ["evil"] ∧
    ¬ outDir <+: resolveComps (entryDest outDir name) := by
  have hdest : entryDest outDir name =
      outDir ++ List.replicate (outDir.length + 1) ".." ++ ["evil"] := by
    simp only [entryDest, parentPath, entryParents, entryFinal, hsplit,
      List.dropLast_concat, List.getLastD_concat, List.append_assoc]
  have hres : resolveComps (entryDest outDir name) = ["evil"] := by
    rw [hdest]
    simp only [resolveComps, List.foldl_append]
    rw [foldl_resolveStep_clean outDir [] hclean]
    rw [foldl_resolveStep_dotdot (outDir.length + 1) ([] ++ outDir) (by simp)]
    simp [resolveStep]
  refine ⟨?_, hdest, hres, ?_⟩
  · rw [hsplit]
    exact List.mem_append_left _ (List.mem_replicate.mpr ⟨by omega, rfl⟩)
  · rw [hres]
    rintro ⟨t, ht⟩
    match outDir, hne with
    | x :: xs, _ =>
      simp only [List.cons_append, List.cons.injEq] at ht
      obtain ⟨hx, hrest⟩ := ht
      exact hev (hx ▸ List.mem_cons_self x xs)

/-- Witness for C9 (amended) at the concrete entry `../../evil` under the
root `out`. -/
theorem c9_escape_witness :
    ".." ∈ entryComponents "../../evil" ∧
    entryDest ["out"] "../../evil" = ["out"] ++ List.replicate 2 ".." ++ ["evil"] ∧
    resolveComps (entryDest ["out"] "../../evil") = ["evil"] ∧
    ¬ ["out"] <+: resolveComps (entryDest ["out"] "../../evil") :=
  c9_dotdot_escape ["out"] "../../evil" (by decide) (by decide) (by decide) (by decide)

/-- Witness for C3: a run where every tool succeeds, and a run where
`autoreconf` is missing. -/
theorem c3_witness :
    posixPipeline (fun _ => .exited true) ["out"] =
      ([autoreconfCmd ["out"], configureCmd ["out"], makeInstallCmd ["out"]], .ok ()) ∧
    posixPipeline (fun c => if c.program = "autoreconf"
        then .execErr ⟨.notFound, "No such file or directory (os error 2)"⟩
        else .exited true) ["out"] =
      ([autoreconfCmd ["out"]],
        .error (.toolPanic ("failed to execute `autoreconf`: " ++
          "No such file or directory (os error 2)" ++ ". Are the Autotools installed?"))) := by
  constructor
  · exact (c3_posix_pipeline_sequencing (fun _ => .exited true) ["out"]).1 rfl rfl rfl
  · exact ((c3_posix_pipeline_sequencing _ ["out"]).2.2.2
      ⟨.notFound, "No such file or directory (os error 2)"⟩ rfl rfl).1

/-! ## Functional-filesystem lemmas -/

/-- Normalization is idempotent. -/
theorem normP_idem (p : Path) : normP (normP p) = normP p := by
  simp [normP, List.filter_filter]

/-- Lookup depends on a path only through its normalization. -/
theorem fsGet_congr (fs : FS) {p q : Path} (h : normP p = normP q) :
    fsGet fs p = fsGet fs q := by
  induction fs with
  | nil => rfl
  | cons hd tl ih => simp only [fsGet, h, ih]

/-- Lookup after store. -/
theorem fsGet_fsSet (fs : FS) (p : Path) (n : Node) (q : Path) :
    fsGet (fsSet fs p n) q = if normP p = normP q then some n else fsGet fs q := by
  induction fs with
  | nil =>
    by_cases h : normP p = normP q <;> simp [fsSet, fsGet, h]
  | cons hd tl ih =>
    obtain ⟨k, v⟩ := hd
    by_cases hk : k = normP p
    · subst hk
      by_cases h : normP p = normP q <;> simp [fsSet, fsGet, h]
    · by_cases hq : k = normP q
      · subst hq
        have h : ¬ normP p = normP q := fun h => hk h.symm
        simp [fsSet, fsGet, hk, h]
      · simp [fsSet, fsGet, hk, hq, ih]

/-- The `create_dir_all` walk never disturbs an existing node. -/
theorem fsGet_mkDirsGo (l : List String) (fs : FS) (pre : Path) (q : Path) (n : Node)
    (h : fsGet fs q = some n) : fsGet (mkDirsGo fs pre l).1 q = some n := by
  induction l generalizing fs pre with
  | nil => exact h
  | cons c cs ih =>
    rcases hg : fsGet fs (pre ++ [c]) with _ | nd
    · simp only [mkDirsGo, hg]
      refine ih _ _ ?_
      rw [fsGet_fsSet]
      by_cases he : normP (pre ++ [c]) = normP q
      · rw [fsGet_congr fs he] at hg
        rw [hg] at h
        cases h
      · simp [he, h]
    · cases nd with
      | dir m => simp only [mkDirsGo, hg]; exact ih _ _ h
      | file cont m => simp only [mkDirsGo, hg]; exact h

/-- A successful `create_dir_all` walk leaves its target present. -/
theorem mkDirsGo_ok_exists (l : List String) (fs : FS) (pre : Path)
    (hok : (mkDirsGo fs pre l).2 = .ok) (hne : l ≠ []) :
    fsGet (mkDirsGo fs pre l).1 (pre ++ l) ≠ none := by
  induction l generalizing fs pre with
  | nil => cases hne rfl
  | cons c cs ih =>
    rw [List.append_cons]
    rcases hg : fsGet fs (pre ++ [c]) with _ | nd
    · simp only [mkDirsGo, hg] at hok ⊢
      cases cs with
      | nil =>
        simp only [mkDirsGo, List.append_nil]
        rw [fsGet_fsSet]
        simp
      | cons c' cs' => exact ih _ _ hok (by simp)
    · cases nd with
      | file cont m => simp only [mkDirsGo, hg] at hok; cases hok
      | dir m =>
        simp only [mkDirsGo, hg] at hok ⊢
        cases cs with
        | nil =>
          simp only [mkDirsGo, List.append_nil]
          rw [hg]
          simp
        | cons c' cs' => exact ih _ _ hok (by simp)

/-- The `create_dir_all` semantics never disturbs an existing node. -/
theorem fsGet_createDirAllFS (fs : FS) (p : Path) (q : Path) (n : Node)
    (h : fsGet fs q = some n) : fsGet (createDirAllFS fs p).1 q = some n :=
  fsGet_mkDirsGo _ _ _ _ _ h

/-- Lookup is blind to the normalization of its argument. -/
theorem fsGet_normP (fs : FS) (p : Path) : fsGet fs (normP p) = fsGet fs p :=
  fsGet_congr fs (normP_idem p)

/-- Storing at a currently absent key preserves every present node. -/
theorem fsGet_fsSet_of_absent (fs : FS) (p : Path) (n : Node) (q : Path) (nq : Node)
    (habs : fsGet fs p = none) (h : fsGet fs q = some nq) :
    fsGet (fsSet fs p n) q = some nq := by
  rw [fsGet_fsSet]
  by_cases he : normP p = normP q
  · rw [fsGet_congr fs he] at habs
    rw [habs] at h
    cases h
  · simp [he, h]

/-- The `create_dir` semantics can only add the (currently absent)
target itself, preserving every present node. -/
theorem fsGet_createDirFS (fs : FS) (p : Path) (q : Path) (n : Node)
    (h : fsGet fs q = some n) : fsGet (createDirFS fs p).1 q = some n := by
  unfold createDirFS
  dsimp only
  split
  · exact h
  next habs =>
    split
    · exact fsGet_fsSet_of_absent fs (normP p) _ q n habs h
    · split
      · exact fsGet_fsSet_of_absent fs (normP p) _ q n habs h
      · exact h
      · exact h

/-- The `open` (write+create) semantics can only add the (currently
absent) target itself, preserving every present node. -/
theorem fsGet_openFileFS (fs : FS) (p : Path) (q : Path) (n : Node)
    (h : fsGet fs q = some n) : fsGet (openFileFS fs p).1 q = some n := by
  unfold openFileFS
  dsimp only
  split
  · exact h
  · exact h
  next habs =>
    split
    · exact fsGet_fsSet_of_absent fs (normP p) _ q n habs h
    · split
      · exact fsGet_fsSet_of_absent fs (normP p) _ q n habs h
      · exact h
      · exact h

/-- The copy semantics touches only its target path. -/
theorem fsGet_copyDataFS_ne (fs : FS) (p : Path) (d : List Nat) (q : Path)
    (hne : normP p ≠ normP q) : fsGet (copyDataFS fs p d).1 q = fsGet fs q := by
  unfold copyDataFS
  split
  · rw [fsGet_fsSet]
    simp [hne]
  · rfl

/-- The chmod semantics touches only its target path. -/
theorem fsGet_chmodFS_ne (ok : Path → Bool) (fs : FS) (p : Path) (mode : Nat) (q : Path)
    (hne : normP p ≠ normP q) : fsGet (chmodFS ok fs p mode).1 q = fsGet fs q := by
  unfold chmodFS
  split
  · split
    · rw [fsGet_fsSet]; simp [hne]
    · rw [fsGet_fsSet]; simp [hne]
    · rfl
  · rfl

/-- Copying into an existing file: the new content is the copied bytes
followed by whatever previous bytes extend past them (no truncation). -/
theorem copyDataFS_at (fs : FS) (p : Path) (d : List Nat) (old : List Nat) (m : Option Nat)
    (hfile : fsGet fs p = some (.file old m)) :
    copyDataFS fs p d = (fsSet fs p (.file (d ++ old.drop d.length) m), .ok) := by
  unfold copyDataFS
  rw [fsGet_normP, hfile]

/-- Chmod of an existing file when the OS permits it. -/
theorem chmodFS_at_file (ok : Path → Bool) (fs : FS) (p : Path) (mode : Nat)
    (c : List Nat) (m : Option Nat)
    (hok : ok p = true) (hfile : fsGet fs p = some (.file c m)) :
    chmodFS ok fs p mode = (fsSet fs p (.file c (some mode)), .ok) := by
  unfold chmodFS
  rw [if_pos hok, fsGet_normP, hfile]

/-- Chmod of an existing directory when the OS permits it. -/
theorem chmodFS_at_dir (ok : Path → Bool) (fs : FS) (p : Path) (mode : Nat)
    (m : Option Nat)
    (hok : ok p = true) (hdir : fsGet fs p = some (.dir m)) :
    chmodFS ok fs p mode = (fsSet fs p (.dir (some mode)), .ok) := by
  unfold chmodFS
  rw [if_pos hok, fsGet_normP, hdir]

/-- Chmod refused by the OS leaves the filesystem untouched. -/
theorem chmodFS_refused (ok : Path → Bool) (fs : FS) (p : Path) (mode : Nat)
    (hok : ok p = false) :
    chmodFS ok fs p mode = (fs, .err ⟨.other, "Operation not permitted"⟩) := by
  unfold chmodFS
  rw [if_neg (by simp [hok])]

/-! ## Branch equations for the extraction steps -/

/-- Parent step when the entry has no parent components. -/
theorem stepParent_empty {S : Type} (F : OsIface S) (outDir : Path) (st : ExtState S)
    (name : String) (hne : (entryParents name).isEmpty = true) :
    stepParent F outDir st name = ([], .ok st) := by
  unfold stepParent
  simp [hne]

/-- Parent step when the parent path was already recorded. -/
theorem stepParent_mem {S : Type} (F : OsIface S) (outDir : Path) (st : ExtState S)
    (name : String) (hne : (entryParents name).isEmpty = false)
    (hmem : (outDir ++ entryParents name) ∈ st.created) :
    stepParent F outDir st name = ([], .ok ⟨st.created, st.fs⟩) := by
  unfold stepParent
  simp [hne, setInsert, hmem]

/-- Parent step when the parent path is new and creation succeeds. -/
theorem stepParent_new_ok {S : Type} (F : OsIface S) (outDir : Path) (st : ExtState S)
    (name : String) (s' : S) (hne : (entryParents name).isEmpty = false)
    (hmem : (outDir ++ entryParents name) ∉ st.created)
    (hc : F.createDirAll st.fs (outDir ++ entryParents name) = (s', .ok)) :
    stepParent F outDir st name =
      ([.createDirAll (outDir ++ entryParents name)],
        .ok ⟨(outDir ++ entryParents name) :: st.created, s'⟩) := by
  unfold stepParent
  simp [hne, setInsert, hmem, hc]

/-- Parent step when the parent path is new and creation reports
`AlreadyExists`: the failure is swallowed. -/
theorem stepParent_new_errAE {S : Type} (F : OsIface S) (outDir : Path) (st : ExtState S)
    (name : String) (s' : S) (er : IOError) (hne : (entryParents name).isEmpty = false)
    (hmem : (outDir ++ entryParents name) ∉ st.created)
    (hc : F.createDirAll st.fs (outDir ++ entryParents name) = (s', .err er))
    (hk : er.kind = .alreadyExists) :
    stepParent F outDir st name =
      ([.createDirAll (outDir ++ entryParents name)],
        .ok ⟨(outDir ++ entryParents name) :: st.created, s'⟩) := by
  unfold stepParent
  simp [hne, setInsert, hmem, hc, hk]

/-- Parent step when the parent path is new and creation fails with any
other kind: the script panics. -/
theorem stepParent_new_errFatal {S : Type} (F : OsIface S) (outDir : Path) (st : ExtState S)
    (name : String) (s' : S) (er : IOError) (hne : (entryParents name).isEmpty = false)
    (hmem : (outDir ++ entryParents name) ∉ st.created)
    (hc : F.createDirAll st.fs (outDir ++ entryParents name) = (s', .err er))
    (hk : ¬ er.kind = .alreadyExists) :
    stepParent F outDir st name =
      ([.createDirAll (outDir ++ entryParents name)],
        .error (.createDirAllFailed (outDir ++ entryParents name) er)) := by
  unfold stepParent
  simp [hne, setInsert, hmem, hc, hk]

/-- Node step for a directory entry whose own path was already recorded. -/
theorem stepNode_dir_mem {S : Type} (F : OsIface S) (outDir : Path) (st : ExtState S)
    (e : Entry) (hf : entryFinal e.name = "")
    (hmem : entryDest outDir e.name ∈ st.created) :
    stepNode F outDir st e = ([], .ok ⟨st.created, st.fs⟩) := by
  unfold stepNode
  simp [hf, setInsert, hmem]

/-- Node step for a new directory entry whose creation succeeds. -/
theorem stepNode_dir_new_ok {S : Type} (F : OsIface S) (outDir : Path) (st : ExtState S)
    (e : Entry) (s' : S) (hf : entryFinal e.name = "")
    (hmem : entryDest outDir e.name ∉ st.created)
    (hc : F.createDir st.fs (entryDest outDir e.name) = (s', .ok)) :
    stepNode F outDir st e =
      ([.createDir (entryDest outDir e.name)],
        .ok ⟨entryDest outDir e.name :: st.created, s'⟩) := by
  unfold stepNode
  simp [hf, setInsert, hmem, hc]

/-- Node step for a new directory entry whose creation reports
`AlreadyExists`: the failure is swallowed. -/
theorem stepNode_dir_new_errAE {S : Type} (F : OsIface S) (outDir : Path) (st : ExtState S)
    (e : Entry) (s' : S) (er : IOError) (hf : entryFinal e.name = "")
    (hmem : entryDest outDir e.name ∉ st.created)
    (hc : F.createDir st.fs (entryDest outDir e.name) = (s', .err er))
    (hk : er.kind = .alreadyExists) :
    stepNode F outDir st e =
      ([.createDir (entryDest outDir e.name)],
        .ok ⟨entryDest outDir e.name :: st.created, s'⟩) := by
  unfold stepNode
  simp [hf, setInsert, hmem, hc, hk]

/-- Node step for a new directory entry whose creation fails with any
other kind: the script panics. -/
theorem stepNode_dir_new_errFatal {S : Type} (F : OsIface S) (outDir : Path) (st : ExtState S)
    (e : Entry) (s' : S) (er : IOError) (hf : entryFinal e.name = "")
    (hmem : entryDest outDir e.name ∉ st.created)
    (hc : F.createDir st.fs (entryDest outDir e.name) = (s', .err er))
    (hk : ¬ er.kind = .alreadyExists) :
    stepNode F outDir st e =
      ([.createDir (entryDest outDir e.name)],
        .error (.createDirFailed (entryDest outDir e.name) er)) := by
  unfold stepNode
  simp [hf, setInsert, hmem, hc, hk]

/-- Node step for a file entry whose open fails: the `unwrap` panics. -/
theorem stepNode_file_openErr {S : Type} (F : OsIface S) (outDir : Path) (st : ExtState S)
    (e : Entry) (s' : S) (er : IOError) (hf : ¬ entryFinal e.name = "")
    (hc : F.openFile st.fs (entryDest outDir e.name) = (s', .err er)) :
    stepNode F outDir st e =
      ([.openFile (entryDest outDir e.name)], .error (.openUnwrap er)) := by
  unfold stepNode
  simp [hf, hc]

/-- Node step for a file entry whose open succeeds but whose content copy
fails: the script panics naming the final component and the destination. -/
theorem stepNode_file_copyErr {S : Type} (F : OsIface S) (outDir : Path) (st : ExtState S)
    (e : Entry) (s' s'' : S) (er : IOError) (hf : ¬ entryFinal e.name = "")
    (ho : F.openFile st.fs (entryDest outDir e.name) = (s', .ok))
    (hcp : F.copyData s' (entryDest outDir e.name) e.content = (s'', .err er)) :
    stepNode F outDir st e =
      ([.openFile (entryDest outDir e.name), .copyFile (entryDest outDir e.name)],
        .error (.copyFailed (entryFinal e.name) (entryDest outDir e.name) er)) := by
  unfold stepNode
  simp [hf, ho, hcp]

/-- Node step for a file entry whose open and copy both succeed. -/
theorem stepNode_file_ok {S : Type} (F : OsIface S) (outDir : Path) (st : ExtState S)
    (e : Entry) (s' s'' : S) (hf : ¬ entryFinal e.name = "")
    (ho : F.openFile st.fs (entryDest outDir e.name) = (s', .ok))
    (hcp : F.copyData s' (entryDest outDir e.name) e.content = (s'', .ok)) :
    stepNode F outDir st e =
      ([.openFile (entryDest outDir e.name), .copyFile (entryDest outDir e.name)],
        .ok ⟨st.created, s''⟩) := by
  unfold stepNode
  simp [hf, ho, hcp]

/-- Chmod step on unix: the call is issued and its result is discarded. -/
theorem stepChmod_unix {S : Type} (F : OsIface S) (outDir : Path) (st : ExtState S)
    (e : Entry) (s' : S) (r : OsResult)
    (hc : F.chmod st.fs (entryDest outDir e.name) e.mode = (s', r)) :
    stepChmod F true outDir st e =
      ([.chmod (entryDest outDir e.name) e.mode], .ok ⟨st.created, s'⟩) := by
  unfold stepChmod
  simp [hc]

/-- Chmod step elsewhere: nothing happens. -/
theorem stepChmod_notUnix {S : Type} (F : OsIface S) (outDir : Path) (st : ExtState S)
    (e : Entry) : stepChmod F false outDir st e = ([], .ok st) := rfl

/-- Inversion of a successful sequencing. -/
theorem andThen_ok {α β : Type} (a : List OsCall × Except Panic α)
    (f : α → List OsCall × Except Panic β) (t : List OsCall) (b : β)
    (h : andThen a f = (t, .ok b)) :
    ∃ t1 x t2, a = (t1, .ok x) ∧ f x = (t2, .ok b) ∧ t = t1 ++ t2 := by
  obtain ⟨t1, r1⟩ := a
  cases r1 with
  | error p => simp [andThen] at h
  | ok x =>
    rcases hf : f x with ⟨t2, r2⟩
    simp only [andThen, hf] at h
    cases r2 with
    | error p => simp at h
    | ok y =>
      simp only [Prod.mk.injEq, Except.ok.injEq] at h
      exact ⟨t1, x, t2, rfl, by rw [hf, h.2], h.1.symm⟩

/-- Inversion of a successful run step. -/
theorem runEntries_cons_ok {S : Type} (F : OsIface S) (isUnix : Bool) (outDir : Path)
    (st : ExtState S) (e : Entry) (es : List Entry) (t : List OsCall) (st' : ExtState S)
    (h : runEntries F isUnix outDir st (e :: es) = (t, .ok st')) :
    ∃ t1 st1 t2, processEntry F isUnix outDir st e = (t1, .ok st1) ∧
      runEntries F isUnix outDir st1 es = (t2, .ok st') ∧ t = t1 ++ t2 := by
  rcases hp : processEntry F isUnix outDir st e with ⟨t1, r1⟩
  cases r1 with
  | error p => simp [runEntries, hp] at h
  | ok st1 =>
    rcases hr : runEntries F isUnix outDir st1 es with ⟨t2, r2⟩
    simp only [runEntries, hp, hr] at h
    cases r2 with
    | error p => simp at h
    | ok st'' =>
      simp only [Prod.mk.injEq, Except.ok.injEq] at h
      exact ⟨t1, st1, t2, rfl, by rw [hr, h.2], h.1.symm⟩

/-- A successful parent step on the concrete filesystem preserves every
present node (it can only add missing directories). -/
theorem stepParent_ok_preserves (ok : Path → Bool) (outDir : Path)
    (st st1 : ExtState FS) (name : String) (t1 : List OsCall)
    (hsp : stepParent (fsIface ok) outDir st name = (t1, .ok st1))
    (q : Path) (n : Node) (h : fsGet st.fs q = some n) : fsGet st1.fs q = some n := by
  by_cases hne : (entryParents name).isEmpty = true
  · rw [stepParent_empty _ _ _ _ hne] at hsp
    simp only [Prod.mk.injEq, Except.ok.injEq] at hsp
    rw [← hsp.2]
    exact h
  · have hne' : (entryParents name).isEmpty = false := by simpa using hne
    by_cases hmem : (outDir ++ entryParents name) ∈ st.created
    · rw [stepParent_mem _ _ _ _ hne' hmem] at hsp
      simp only [Prod.mk.injEq, Except.ok.injEq] at hsp
      rw [← hsp.2]
      exact h
    · rcases hc : (fsIface ok).createDirAll st.fs (outDir ++ entryParents name) with ⟨s2, res⟩
      have hpres : fsGet s2 q = some n := by
        have hall := fsGet_createDirAllFS st.fs (outDir ++ entryParents name) q n h
        have hc' : createDirAllFS st.fs (outDir ++ entryParents name) = (s2, res) := hc
        rwa [hc'] at hall
      cases res with
      | ok =>
        rw [stepParent_new_ok _ _ _ _ _ hne' hmem hc] at hsp
        simp only [Prod.mk.injEq, Except.ok.injEq] at hsp
        rw [← hsp.2]
        exact hpres
      | err er =>
        by_cases hk : er.kind = .alreadyExists
        · rw [stepParent_new_errAE _ _ _ _ _ _ hne' hmem hc hk] at hsp
          simp only [Prod.mk.injEq, Except.ok.injEq] at hsp
          rw [← hsp.2]
          exact hpres
        · rw [stepParent_new_errFatal _ _ _ _ _ _ hne' hmem hc hk] at hsp
          simp at hsp

/-- C10: a file entry's destination is opened with write and create but
no truncate, so when a longer file already exists at the destination, the
materialized content is the copied bytes followed by the old bytes past
the copied length — in particular not the archive entry's content, so
extraction into a non-fresh output root need not reproduce the archive. -/
theorem c10_open_without_truncate (ok : Path → Bool) (isUnix : Bool) (outDir : Path)
    (st st' : ExtState FS) (t : List OsCall) (e : Entry) (old : List Nat) (m : Option Nat)
    (hfile : ¬ entryFinal e.name = "")
    (hold : fsGet st.fs (entryDest outDir e.name) = some (.file old m))
    (hrun : processEntry (fsIface ok) isUnix outDir st e = (t, .ok st')) :
    (∃ m', fsGet st'.fs (entryDest outDir e.name) =
        some (.file (e.content ++ old.drop e.content.length) m')) ∧
    (e.content.length < old.length →
      ∀ m', ¬ fsGet st'.fs (entryDest outDir e.name) = some (.file e.content m')) := by
  unfold processEntry at hrun
  obtain ⟨t1, st1, t23, hsp, hrest, ht⟩ := andThen_ok _ _ _ _ hrun
  obtain ⟨t2, st2, t3, hsn, hsc, ht2⟩ := andThen_ok _ _ _ _ hrest
  have hold1 : fsGet st1.fs (entryDest outDir e.name) = some (.file old m) :=
    stepParent_ok_preserves ok outDir st st1 e.name t1 hsp _ _ hold
  have hopen : (fsIface ok).openFile st1.fs (entryDest outDir e.name) = (st1.fs, .ok) := by
    show openFileFS st1.fs (entryDest outDir e.name) = (st1.fs, .ok)
    unfold openFileFS
    dsimp only
    rw [fsGet_normP, hold1]
  have hcopy : (fsIface ok).copyData st1.fs (entryDest outDir e.name) e.content =
      (fsSet st1.fs (entryDest outDir e.name)
        (.file (e.content ++ old.drop e.content.length) m), .ok) :=
    copyDataFS_at st1.fs _ e.content old m hold1
  rw [stepNode_file_ok _ _ _ _ _ _ hfile hopen hcopy] at hsn
  simp only [Prod.mk.injEq, Except.ok.injEq] at hsn
  have hget2 : fsGet st2.fs (entryDest outDir e.name) =
      some (.file (e.content ++ old.drop e.content.length) m) := by
    rw [← hsn.2, fsGet_fsSet]
    simp
  have hmain : ∃ m', fsGet st'.fs (entryDest outDir e.name) =
      some (.file (e.content ++ old.drop e.content.length) m') := by
    cases isUnix with
    | false =>
      rw [stepChmod_notUnix] at hsc
      simp only [Prod.mk.injEq, Except.ok.injEq] at hsc
      exact ⟨m, hsc.2 ▸ hget2⟩
    | true =>
      rcases hch : (fsIface ok).chmod st2.fs (entryDest outDir e.name) e.mode with ⟨s3, r3⟩
      rw [stepChmod_unix _ _ _ _ _ _ hch] at hsc
      simp only [Prod.mk.injEq, Except.ok.injEq] at hsc
      rw [← hsc.2]
      have hch' : chmodFS ok st2.fs (entryDest outDir e.name) e.mode = (s3, r3) := hch
      by_cases hok : ok (entryDest outDir e.name) = true
      · rw [chmodFS_at_file ok st2.fs _ e.mode _ m hok hget2] at hch'
        simp only [Prod.mk.injEq] at hch'
        refine ⟨some e.mode, ?_⟩
        rw [show s3 = fsSet st2.fs (entryDest outDir e.name)
          (.file (e.content ++ old.drop e.content.length) (some e.mode)) from hch'.1.symm]
        rw [fsGet_fsSet]
        simp
      · rw [chmodFS_refused ok st2.fs _ e.mode (by simpa using hok)] at hch'
        simp only [Prod.mk.injEq] at hch'
        exact ⟨m, hch'.1 ▸ hget2⟩
  refine ⟨hmain, ?_⟩
  intro hlen m'' heq
  obtain ⟨m', hm'⟩ := hmain
  rw [hm'] at heq
  simp only [Option.some.injEq, Node.file.injEq] at heq
  have hlen2 := congrArg List.length heq.1
  simp only [List.length_append, List.length_drop] at hlen2
  omega

/-- Witness for C10: extracting a one-byte file entry over an existing
three-byte file leaves the two old trailing bytes in place. -/
theorem c10_witness :
    (¬ entryFinal "f" = "") ∧
    fsGet [(["out"], Node.dir none), (["out", "f"], Node.file [9, 9, 9] none)]
      (entryDest ["out"] "f") = some (.file [9, 9, 9] none) ∧
    (∃ m', fsGet [(["out"], Node.dir none), (["out", "f"], Node.file [5, 9, 9] none)]
      (entryDest ["out"] "f") = some (.file ([5] ++ [9, 9, 9].drop 1) m')) := by
  refine ⟨by decide, by decide, ?_⟩
  have h := c10_open_without_truncate (fun _ => true) false ["out"]
    ⟨[], [(["out"], Node.dir none), (["out", "f"], Node.file [9, 9, 9] none)]⟩
    ⟨[], [(["out"], Node.dir none), (["out", "f"], Node.file [5, 9, 9] none)]⟩
    [.openFile ["out", "f"], .copyFile ["out", "f"]]
    ⟨"f", 420, [5]⟩ [9, 9, 9] none (by decide) (by decide) rfl
  obtain ⟨⟨m', hm'⟩, -⟩ := h
  exact ⟨m', hm'⟩

/-- Left unit for sequencing: a successful first step contributes its
trace and passes its state on. -/
theorem andThen_okLeft {α β : Type} (t1 : List OsCall) (x : α)
    (f : α → List OsCall × Except Panic β) :
    andThen (t1, .ok x) f = (t1 ++ (f x).1, (f x).2) := by
  rcases h : f x with ⟨t', r⟩
  simp [andThen, h]

/-- A failed first step short-circuits the sequencing. -/
theorem andThen_errLeft {α β : Type} (t1 : List OsCall) (p : Panic)
    (f : α → List OsCall × Except Panic β) :
    andThen ((t1, .error p) : List OsCall × Except Panic α) f = (t1, .error p) := rfl

/-! ## C4: the chmod result is discarded -/

/-- The failure oracle for the C4 counterexample: every chmod call fails,
every other OS call succeeds. -/
def c4Oracle : OsCall → OsResult
  | .chmod _ _ => .err ⟨.other, "Operation not permitted"⟩
  | _ => .ok

/-- C4 counterexample: with the permission-set call on the entry failing,
extraction of a file entry still completes successfully — a chmod failure
does not abort the run, refuting the claim that it is fatal. -/
theorem c4_counterexample :
    (runExtract (oracleIface c4Oracle) true ["out"] () [⟨"srcdir/f.c", 420, [1]⟩]).1 =
      [.createDirAll ["out", "srcdir"], .openFile ["out", "srcdir", "f.c"],
        .copyFile ["out", "srcdir", "f.c"], .chmod ["out", "srcdir", "f.c"] 420] ∧
    (runExtract (oracleIface c4Oracle) true ["out"] () [⟨"srcdir/f.c", 420, [1]⟩]).2 =
      .ok ⟨[["out", "srcdir"]], ()⟩ ∧
    c4Oracle (.chmod ["out", "srcdir", "f.c"] 420) =
      .err ⟨.other, "Operation not permitted"⟩ :=
  ⟨rfl, rfl, rfl⟩

/-- C4 (amended): the extractor discards the chmod result entirely — two
effect implementations that agree on every call except the returned
result of chmod produce identical runs, so a permission-set failure never
aborts (or otherwise alters) extraction; only reading the entry's mode is
infallible here, and all other materialization failures remain fatal. -/
theorem c4_chmod_result_ignored {S : Type} (F F' : OsIface S)
    (hcda : F.createDirAll = F'.createDirAll) (hcd : F.createDir = F'.createDir)
    (hof : F.openFile = F'.openFile) (hcp : F.copyData = F'.copyData)
    (hch : ∀ s p m, (F.chmod s p m).1 = (F'.chmod s p m).1)
    (isUnix : Bool) (outDir : Path) (s0 : S) (es : List Entry) :
    runExtract F isUnix outDir s0 es = runExtract F' isUnix outDir s0 es := by
  have hsp : ∀ st name, stepParent F outDir st name = stepParent F' outDir st name := by
    intro st name
    unfold stepParent
    rw [hcda]
  have hsn : ∀ st e, stepNode F outDir st e = stepNode F' outDir st e := by
    intro st e
    unfold stepNode
    rw [hcd, hof, hcp]
  have hsc : ∀ st e, stepChmod F isUnix outDir st e = stepChmod F' isUnix outDir st e := by
    intro st e
    cases isUnix with
    | false => rfl
    | true =>
      rcases h1 : F.chmod st.fs (entryDest outDir e.name) e.mode with ⟨s1, r1⟩
      rcases h2 : F'.chmod st.fs (entryDest outDir e.name) e.mode with ⟨s2, r2⟩
      have hs : s1 = s2 := by
        have := hch st.fs (entryDest outDir e.name) e.mode
        rw [h1, h2] at this
        exact this
      unfold stepChmod
      simp [h1, h2, hs]
  have hpe : ∀ st e, processEntry F isUnix outDir st e = processEntry F' isUnix outDir st e := by
    intro st e
    unfold processEntry
    rw [hsp]
    congr 1
    funext st1
    rw [hsn]
    congr 1
    funext st2
    exact hsc st2 e
  have hre : ∀ (es : List Entry) (st : ExtState S),
      runEntries F isUnix outDir st es = runEntries F' isUnix outDir st es := by
    intro es
    induction es with
    | nil => intro st; rfl
    | cons e es ih =>
      intro st
      simp only [runEntries, hpe st e, ih]
  exact hre es ⟨[], s0⟩

/-- Witness for C4 (amended): the all-chmods-fail oracle and the
all-calls-succeed oracle give the same run. -/
theorem c4_witness :
    runExtract (oracleIface c4Oracle) true ["out"] () [⟨"srcdir/f.c", 420, [1]⟩] =
      runExtract (oracleIface fun _ => .ok) true ["out"] () [⟨"srcdir/f.c", 420, [1]⟩] :=
  c4_chmod_result_ignored _ _ rfl rfl rfl rfl (fun _ _ _ => rfl) true ["out"] ()
    [⟨"srcdir/f.c", 420, [1]⟩]

/-! ## C5: fatality and diagnostics of file-entry I/O failures -/

/-- The failure oracle for the C5 counterexample: opening any destination
file fails, everything else succeeds. -/
def c5Oracle : OsCall → OsResult
  | .openFile _ => .err ⟨.other, "disk quota exhausted"⟩
  | _ => .ok

/-- C5 counterexample: an open/create failure on a file entry is fatal,
but the diagnostic is the generic `Result::unwrap` text, which names
neither the offending entry nor the destination path — refuting the claim
that every such diagnostic reports both. -/
theorem c5_counterexample :
    (runExtract (oracleIface c5Oracle) true ["out"] () [⟨"srcdir/zz.c", 420, [1]⟩]).2 =
      .error (.openUnwrap ⟨.other, "disk quota exhausted"⟩) ∧
    ¬ strContains (Panic.openUnwrap ⟨.other, "disk quota exhausted"⟩).message "zz.c" ∧
    ¬ strContains (Panic.openUnwrap ⟨.other, "disk quota exhausted"⟩).message
      (renderPath ["out", "srcdir", "zz.c"]) :=
  ⟨rfl, by decide, by decide⟩

/-- C5 (amended): for a file entry, an open/create failure and a copy
failure are both fatal and abort the remaining run; a copy failure's
diagnostic reports the entry's final path component and the destination
path, while an open/create failure aborts through `Result::unwrap` with
its generic text built only from the OS error. -/
theorem c5_file_io_failures {S : Type} (F : OsIface S) (isUnix : Bool) (outDir : Path)
    (st st1 : ExtState S) (t1 : List OsCall) (e : Entry) (es : List Entry) (er : IOError)
    (hfile : ¬ entryFinal e.name = "")
    (hpar : stepParent F outDir st e.name = (t1, .ok st1)) :
    (∀ s', F.openFile st1.fs (entryDest outDir e.name) = (s', .err er) →
      processEntry F isUnix outDir st e =
        (t1 ++ [.openFile (entryDest outDir e.name)], .error (.openUnwrap er)) ∧
      (Panic.openUnwrap er).message =
        "called `Result::unwrap()` on an `Err` value: " ++ er.msg) ∧
    (∀ s', F.openFile st1.fs (entryDest outDir e.name) = (s', .ok) →
      ∀ s'', F.copyData s' (entryDest outDir e.name) e.content = (s'', .err er) →
      processEntry F isUnix outDir st e =
        (t1 ++ [.openFile (entryDest outDir e.name), .copyFile (entryDest outDir e.name)],
          .error (.copyFailed (entryFinal e.name) (entryDest outDir e.name) er)) ∧
      strContains (Panic.copyFailed (entryFinal e.name) (entryDest outDir e.name) er).message
        (entryFinal e.name) ∧
      strContains (Panic.copyFailed (entryFinal e.name) (entryDest outDir e.name) er).message
        (renderPath (entryDest outDir e.name))) ∧
    (∀ t p, processEntry F isUnix outDir st e = (t, .error p) →
      runEntries F isUnix outDir st (e :: es) = (t, .error p)) := by
  refine ⟨?_, ?_, ?_⟩
  · intro s' ho
    constructor
    · unfold processEntry
      rw [hpar, andThen_okLeft, stepNode_file_openErr _ _ _ _ _ _ hfile ho, andThen_errLeft]
    · rfl
  · intro s' ho s'' hcp
    refine ⟨?_, ?_, ?_⟩
    · unfold processEntry
      rw [hpar, andThen_okLeft, stepNode_file_copyErr _ _ _ _ _ _ _ hfile ho hcp,
        andThen_errLeft]
    · exact ⟨"failed to extract ".data,
        (" to " ++ renderPath (entryDest outDir e.name) ++ ": " ++ er.msg).data,
        by simp [Panic.message, String.data_append]⟩
    · exact ⟨("failed to extract " ++ entryFinal e.name ++ " to ").data,
        (": " ++ er.msg).data,
        by simp [Panic.message, String.data_append]⟩
  · intro t p h
    simp only [runEntries, h]

/-- The failure oracle for the C5 witness's copy branch: copying fails,
everything else succeeds. -/
def c5CopyOracle : OsCall → OsResult
  | .copyFile _ => .err ⟨.other, "input/output error"⟩
  | _ => .ok

/-- Witness for C5 (amended) at concrete runs exercising both the open
failure and the copy failure. -/
theorem c5_witness :
    processEntry (oracleIface c5Oracle) true ["out"] ⟨[], ()⟩ ⟨"srcdir/zz.c", 420, [1]⟩ =
      ([.createDirAll ["out", "srcdir"], .openFile ["out", "srcdir", "zz.c"]],
        .error (.openUnwrap ⟨.other, "disk quota exhausted"⟩)) ∧
    processEntry (oracleIface c5CopyOracle) true ["out"] ⟨[], ()⟩ ⟨"srcdir/zz.c", 420, [1]⟩ =
      ([.createDirAll ["out", "srcdir"], .openFile ["out", "srcdir", "zz.c"],
          .copyFile ["out", "srcdir", "zz.c"]],
        .error (.copyFailed "zz.c" ["out", "srcdir", "zz.c"]
          ⟨.other, "input/output error"⟩)) ∧
    strContains (Panic.copyFailed "zz.c" ["out", "srcdir", "zz.c"]
      ⟨.other, "input/output error"⟩).message "zz.c" ∧
    strContains (Panic.copyFailed "zz.c" ["out", "srcdir", "zz.c"]
      ⟨.other, "input/output error"⟩).message (renderPath ["out", "srcdir", "zz.c"]) := by
  have h1 := (c5_file_io_failures (oracleIface c5Oracle) true ["out"] ⟨[], ()⟩
    ⟨[["out", "srcdir"]], ()⟩ [.createDirAll ["out", "srcdir"]] ⟨"srcdir/zz.c", 420, [1]⟩
    [] ⟨.other, "disk quota exhausted"⟩ (by decide) rfl).1 () rfl
  have h2 := (c5_file_io_failures (oracleIface c5CopyOracle) true ["out"] ⟨[], ()⟩
    ⟨[["out", "srcdir"]], ()⟩ [.createDirAll ["out", "srcdir"]] ⟨"srcdir/zz.c", 420, [1]⟩
    [] ⟨.other, "input/output error"⟩ (by decide) rfl).2.1 () rfl () rfl
  exact ⟨h1.1, h2.1, h2.2.1, h2.2.2⟩

/-! ## C2: deduplication of directory-creation calls -/

/-- The targets of the directory-creation calls (`create_dir_all` and
`create_dir`) in a trace. -/
def dirTargets (t : List OsCall) : List Path :=
  t.filterMap fun c => match c with
    | .createDirAll p => some p
    | .createDir p => some p
    | _ => none

/-- Traces concatenate. -/
theorem dirTargets_append (t t' : List OsCall) :
    dirTargets (t ++ t') = dirTargets t ++ dirTargets t' := by
  simp [dirTargets]

/-- The bookkeeping invariant of one extraction fragment started in state
`st`: its directory-creation targets are pairwise distinct, none of them
was recorded before the fragment, and on success the recorded set grows
monotonically and absorbs every target. -/
def DirGood {S : Type} (st : ExtState S) (r : List OsCall × Except Panic (ExtState S)) : Prop :=
  (dirTargets r.1).Nodup ∧
  (∀ p ∈ dirTargets r.1, p ∉ st.created) ∧
  (∀ st', r.2 = .ok st' → st.created ⊆ st'.created ∧ ∀ p ∈ dirTargets r.1, p ∈ st'.created)

/-- A fragment with no directory-creation call and unchanged-or-grown
bookkeeping satisfies the invariant. -/
theorem dirGood_nilOk {S : Type} (st st2 : ExtState S) (t : List OsCall)
    (ht : dirTargets t = []) (hsub : st.created ⊆ st2.created) :
    DirGood st (t, .ok st2) := by
  refine ⟨by simp [ht], by simp [ht], ?_⟩
  intro st' h
  injection h with h
  subst h
  exact ⟨hsub, by simp [ht]⟩

/-- A failing fragment satisfies the invariant as soon as its targets do. -/
theorem dirGood_err {S : Type} (st : ExtState S) (t : List OsCall) (p : Panic)
    (h1 : (dirTargets t).Nodup) (h2 : ∀ q ∈ dirTargets t, q ∉ st.created) :
    DirGood st (t, .error p) :=
  ⟨h1, h2, fun _ h => Except.noConfusion h⟩

/-- A fragment recording exactly its one fresh target. -/
theorem dirGood_oneNew {S : Type} (st : ExtState S) (c : OsCall) (p : Path) (s' : S)
    (hc : dirTargets [c] = [p]) (hmem : p ∉ st.created) :
    DirGood st ([c], .ok ⟨p :: st.created, s'⟩) := by
  refine ⟨by simp [hc], by simp [hc]; exact hmem, ?_⟩
  intro st' h
  injection h with h
  subst h
  refine ⟨fun q hq => List.mem_cons_of_mem _ hq, ?_⟩
  simp [hc]

/-- The invariant composes through sequencing. -/
theorem dirGood_andThen {S : Type} (st : ExtState S)
    (a : List OsCall × Except Panic (ExtState S))
    (f : ExtState S → List OsCall × Except Panic (ExtState S))
    (ha : DirGood st a) (hf : ∀ x, a.2 = .ok x → DirGood x (f x)) :
    DirGood st (andThen a f) := by
  obtain ⟨t1, r1⟩ := a
  cases r1 with
  | error p => exact ha
  | ok x =>
    have hfx := hf x rfl
    rw [andThen_okLeft]
    rcases hx : f x with ⟨t2, r2⟩
    rw [hx] at hfx
    obtain ⟨ha1, ha2, ha3⟩ := ha
    obtain ⟨hb1, hb2, hb3⟩ := hfx
    obtain ⟨hsub, htar⟩ := ha3 x rfl
    refine ⟨?_, ?_, ?_⟩
    · rw [dirTargets_append]
      exact List.Nodup.append ha1 hb1 (fun p hp1 hp2 => hb2 p hp2 (htar p hp1))
    · intro p hp
      rw [dirTargets_append] at hp
      rcases List.mem_append.mp hp with h | h
      · exact ha2 p h
      · exact fun hmem => hb2 p h (hsub hmem)
    · intro st' hok
      obtain ⟨hsub2, htar2⟩ := hb3 st' hok
      refine ⟨fun q hq => hsub2 (hsub hq), ?_⟩
      intro p hp
      rw [dirTargets_append] at hp
      rcases List.mem_append.mp hp with h | h
      · exact hsub2 (htar p h)
      · exact htar2 p h

/-- The parent step respects the invariant. -/
theorem dirGood_stepParent {S : Type} (F : OsIface S) (outDir : Path) (st : ExtState S)
    (name : String) : DirGood st (stepParent F outDir st name) := by
  by_cases hne : (entryParents name).isEmpty = true
  · rw [stepParent_empty _ _ _ _ hne]
    exact dirGood_nilOk st st [] rfl (fun q hq => hq)
  · have hne' : (entryParents name).isEmpty = false := by simpa using hne
    by_cases hmem : (outDir ++ entryParents name) ∈ st.created
    · rw [stepParent_mem _ _ _ _ hne' hmem]
      exact dirGood_nilOk st ⟨st.created, st.fs⟩ [] rfl (fun q hq => hq)
    · rcases hc : F.createDirAll st.fs (outDir ++ entryParents name) with ⟨s', res⟩
      cases res with
      | ok =>
        rw [stepParent_new_ok _ _ _ _ _ hne' hmem hc]
        exact dirGood_oneNew st _ _ s' rfl hmem
      | err er =>
        by_cases hk : er.kind = .alreadyExists
        · rw [stepParent_new_errAE _ _ _ _ _ _ hne' hmem hc hk]
          exact dirGood_oneNew st _ _ s' rfl hmem
        · rw [stepParent_new_errFatal _ _ _ _ _ _ hne' hmem hc hk]
          exact dirGood_err st _ _ (by simp [dirTargets]) (by simp [dirTargets]; exact hmem)

/-- The node step respects the invariant. -/
theorem dirGood_stepNode {S : Type} (F : OsIface S) (outDir : Path) (st : ExtState S)
    (e : Entry) : DirGood st (stepNode F outDir st e) := by
  by_cases hf : entryFinal e.name = ""
  · by_cases hmem : entryDest outDir e.name ∈ st.created
    · rw [stepNode_dir_mem _ _ _ _ hf hmem]
      exact dirGood_nilOk st ⟨st.created, st.fs⟩ [] rfl (fun q hq => hq)
    · rcases hc : F.createDir st.fs (entryDest outDir e.name) with ⟨s', res⟩
      cases res with
      | ok =>
        rw [stepNode_dir_new_ok _ _ _ _ _ hf hmem hc]
        exact dirGood_oneNew st _ _ s' rfl hmem
      | err er =>
        by_cases hk : er.kind = .alreadyExists
        · rw [stepNode_dir_new_errAE _ _ _ _ _ _ hf hmem hc hk]
          exact dirGood_oneNew st _ _ s' rfl hmem
        · rw [stepNode_dir_new_errFatal _ _ _ _ _ _ hf hmem hc hk]
          exact dirGood_err st _ _ (by simp [dirTargets]) (by simp [dirTargets]; exact hmem)
  · rcases ho : F.openFile st.fs (entryDest outDir e.name) with ⟨s', res⟩
    cases res with
    | err er =>
      rw [stepNode_file_openErr _ _ _ _ _ _ hf ho]
      exact dirGood_err st _ _ (by simp [dirTargets]) (by simp [dirTargets])
    | ok =>
      rcases hcp : F.copyData s' (entryDest outDir e.name) e.content with ⟨s'', res2⟩
      cases res2 with
      | err er =>
        rw [stepNode_file_copyErr _ _ _ _ _ _ _ hf ho hcp]
        exact dirGood_err st _ _ (by simp [dirTargets]) (by simp [dirTargets])
      | ok =>
        rw [stepNode_file_ok _ _ _ _ _ _ hf ho hcp]
        exact dirGood_nilOk st ⟨st.created, s''⟩ _ (by simp [dirTargets]) (fun q hq => hq)

/-- The chmod step respects the invariant. -/
theorem dirGood_stepChmod {S : Type} (F : OsIface S) (isUnix : Bool) (outDir : Path)
    (st : ExtState S) (e : Entry) : DirGood st (stepChmod F isUnix outDir st e) := by
  cases isUnix with
  | false => exact dirGood_nilOk st st [] rfl (fun q hq => hq)
  | true =>
    rcases hc : F.chmod st.fs (entryDest outDir e.name) e.mode with ⟨s', r⟩
    rw [stepChmod_unix _ _ _ _ _ _ hc]
    exact dirGood_nilOk st ⟨st.created, s'⟩ _ (by simp [dirTargets]) (fun q hq => hq)

/-- One entry respects the invariant. -/
theorem dirGood_processEntry {S : Type} (F : OsIface S) (isUnix : Bool) (outDir : Path)
    (st : ExtState S) (e : Entry) : DirGood st (processEntry F isUnix outDir st e) := by
  unfold processEntry
  exact dirGood_andThen _ _ _ (dirGood_stepParent F outDir st e.name)
    (fun x _ => dirGood_andThen _ _ _ (dirGood_stepNode F outDir x e)
      (fun y _ => dirGood_stepChmod F isUnix outDir y e))

/-- The loop body is the sequencing of one entry with the rest. -/
theorem runEntries_cons_eq {S : Type} (F : OsIface S) (isUnix : Bool) (outDir : Path)
    (st : ExtState S) (e : Entry) (es : List Entry) :
    runEntries F isUnix outDir st (e :: es) =
      andThen (processEntry F isUnix outDir st e)
        (fun st1 => runEntries F isUnix outDir st1 es) := by
  rcases h : processEntry F isUnix outDir st e with ⟨t, r⟩
  cases r with
  | error p => simp [runEntries, andThen, h]
  | ok st1 => simp [runEntries, andThen, h]

/-- The whole loop respects the invariant. -/
theorem dirGood_runEntries {S : Type} (F : OsIface S) (isUnix : Bool) (outDir : Path) :
    ∀ (es : List Entry) (st : ExtState S), DirGood st (runEntries F isUnix outDir st es) := by
  intro es
  induction es with
  | nil => intro st; exact dirGood_nilOk st st [] rfl (fun q hq => hq)
  | cons e es ih =>
    intro st
    rw [runEntries_cons_eq]
    exact dirGood_andThen _ _ _ (dirGood_processEntry F isUnix outDir st e)
      (fun x _ => ih x)

/-- C2: within a single extraction run the directory-creation calls have
pairwise distinct recorded target paths — a path already recorded in
`created_paths` is never passed to directory creation again — and
re-inserting an already-recorded path merely reports `false` ("already
handled"), leaving the set unchanged rather than raising an error. -/
theorem c2_created_paths_dedup {S : Type} (F : OsIface S) (isUnix : Bool) (outDir : Path)
    (s0 : S) (es : List Entry) :
    (dirTargets (runExtract F isUnix outDir s0 es).1).Nodup ∧
    (∀ (s : List Path) (p : Path), p ∈ s → setInsert s p = (false, s)) :=
  ⟨(dirGood_runEntries F isUnix outDir es ⟨[], s0⟩).1,
    fun s p h => by simp [setInsert, h]⟩

/-- Witness for C2 at a concrete nested archive and a concrete
re-insertion. -/
theorem c2_witness :
    (dirTargets (runExtract (oracleIface fun _ => .ok) true ["out"]
      () [⟨"srcdir/", 493, []⟩, ⟨"srcdir/sub/", 493, []⟩,
          ⟨"srcdir/sub/f.c", 420, [1]⟩]).1).Nodup ∧
    setInsert [["out", "srcdir"]] ["out", "srcdir"] = (false, [["out", "srcdir"]]) := by
  have h := c2_created_paths_dedup (oracleIface fun _ => .ok) true ["out"] ()
    [⟨"srcdir/", 493, []⟩, ⟨"srcdir/sub/", 493, []⟩, ⟨"srcdir/sub/f.c", 420, [1]⟩]
  exact ⟨h.1, h.2 [["out", "srcdir"]] ["out", "srcdir"] (by decide)⟩

/-! ## C1: failure policy of directory creation -/

/-- Membership in a sequenced trace comes from one of the two fragments. -/
theorem andThen_trace_mem {α β : Type} (a : List OsCall × Except Panic α)
    (f : α → List OsCall × Except Panic β) (c : OsCall)
    (h : c ∈ (andThen a f).1) :
    c ∈ a.1 ∨ ∃ x, a.2 = .ok x ∧ c ∈ (f x).1 := by
  obtain ⟨t1, r1⟩ := a
  cases r1 with
  | error p => exact Or.inl h
  | ok x =>
    rw [andThen_okLeft] at h
    rcases List.mem_append.mp h with h | h
    · exact Or.inl h
    · exact Or.inr ⟨x, rfl, h⟩

/-- Any call in a parent-step trace is the `create_dir_all` on the parent
path, issued only when the parent components are non-empty and the path
was not yet recorded. -/
theorem stepParent_trace_mem {S : Type} (F : OsIface S) (outDir : Path) (st : ExtState S)
    (name : String) (c : OsCall) (h : c ∈ (stepParent F outDir st name).1) :
    c = .createDirAll (outDir ++ entryParents name) ∧
    (entryParents name).isEmpty = false ∧ (outDir ++ entryParents name) ∉ st.created := by
  by_cases hne : (entryParents name).isEmpty = true
  · rw [stepParent_empty _ _ _ _ hne] at h
    simp at h
  · have hne' : (entryParents name).isEmpty = false := by simpa using hne
    by_cases hmem : (outDir ++ entryParents name) ∈ st.created
    · rw [stepParent_mem _ _ _ _ hne' hmem] at h
      simp at h
    · rcases hc : F.createDirAll st.fs (outDir ++ entryParents name) with ⟨s', res⟩
      cases res with
      | ok =>
        rw [stepParent_new_ok _ _ _ _ _ hne' hmem hc] at h
        simp at h
        exact ⟨h, hne', hmem⟩
      | err er =>
        by_cases hk : er.kind = .alreadyExists
        · rw [stepParent_new_errAE _ _ _ _ _ _ hne' hmem hc hk] at h
          simp at h
          exact ⟨h, hne', hmem⟩
        · rw [stepParent_new_errFatal _ _ _ _ _ _ hne' hmem hc hk] at h
          simp at h
          exact ⟨h, hne', hmem⟩

/-- Any call in a node-step trace is a `create_dir`, open or copy on the
entry's destination. -/
theorem stepNode_trace_shape {S : Type} (F : OsIface S) (outDir : Path) (st : ExtState S)
    (e : Entry) (c : OsCall) (h : c ∈ (stepNode F outDir st e).1) :
    c = .createDir (entryDest outDir e.name) ∨
    c = .openFile (entryDest outDir e.name) ∨
    c = .copyFile (entryDest outDir e.name) := by
  by_cases hf : entryFinal e.name = ""
  · by_cases hmem : entryDest outDir e.name ∈ st.created
    · rw [stepNode_dir_mem _ _ _ _ hf hmem] at h
      simp at h
    · rcases hc : F.createDir st.fs (entryDest outDir e.name) with ⟨s', res⟩
      cases res with
      | ok =>
        rw [stepNode_dir_new_ok _ _ _ _ _ hf hmem hc] at h
        simp at h
        exact Or.inl h
      | err er =>
        by_cases hk : er.kind = .alreadyExists
        · rw [stepNode_dir_new_errAE _ _ _ _ _ _ hf hmem hc hk] at h
          simp at h
          exact Or.inl h
        · rw [stepNode_dir_new_errFatal _ _ _ _ _ _ hf hmem hc hk] at h
          simp at h
          exact Or.inl h
  · rcases ho : F.openFile st.fs (entryDest outDir e.name) with ⟨s', res⟩
    cases res with
    | err er =>
      rw [stepNode_file_openErr _ _ _ _ _ _ hf ho] at h
      simp at h
      exact Or.inr (Or.inl h)
    | ok =>
      rcases hcp : F.copyData s' (entryDest outDir e.name) e.content with ⟨s'', res2⟩
      cases res2 with
      | err er =>
        rw [stepNode_file_copyErr _ _ _ _ _ _ _ hf ho hcp] at h
        simp at h
        rcases h with h | h
        · exact Or.inr (Or.inl h)
        · exact Or.inr (Or.inr h)
      | ok =>
        rw [stepNode_file_ok _ _ _ _ _ _ hf ho hcp] at h
        simp at h
        rcases h with h | h
        · exact Or.inr (Or.inl h)
        · exact Or.inr (Or.inr h)

/-- A `create_dir` call in a node-step trace pins down the directory-entry
branch: empty final component and an unrecorded destination. -/
theorem stepNode_createDir_mem {S : Type} (F : OsIface S) (outDir : Path) (st : ExtState S)
    (e : Entry) (q : Path) (h : OsCall.createDir q ∈ (stepNode F outDir st e).1) :
    q = entryDest outDir e.name ∧ entryFinal e.name = "" ∧
    entryDest outDir e.name ∉ st.created := by
  by_cases hf : entryFinal e.name = ""
  · by_cases hmem : entryDest outDir e.name ∈ st.created
    · rw [stepNode_dir_mem _ _ _ _ hf hmem] at h
      simp at h
    · rcases hc : F.createDir st.fs (entryDest outDir e.name) with ⟨s', res⟩
      cases res with
      | ok =>
        rw [stepNode_dir_new_ok _ _ _ _ _ hf hmem hc] at h
        simp at h
        exact ⟨h, hf, hmem⟩
      | err er =>
        by_cases hk : er.kind = .alreadyExists
        · rw [stepNode_dir_new_errAE _ _ _ _ _ _ hf hmem hc hk] at h
          simp at h
          exact ⟨h, hf, hmem⟩
        · rw [stepNode_dir_new_errFatal _ _ _ _ _ _ hf hmem hc hk] at h
          simp at h
          exact ⟨h, hf, hmem⟩
  · rcases ho : F.openFile st.fs (entryDest outDir e.name) with ⟨s', res⟩
    cases res with
    | err er =>
      rw [stepNode_file_openErr _ _ _ _ _ _ hf ho] at h
      simp at h
    | ok =>
      rcases hcp : F.copyData s' (entryDest outDir e.name) e.content with ⟨s'', res2⟩
      cases res2 with
      | err er =>
        rw [stepNode_file_copyErr _ _ _ _ _ _ _ hf ho hcp] at h
        simp at h
      | ok =>
        rw [stepNode_file_ok _ _ _ _ _ _ hf ho hcp] at h
        simp at h

/-- Any call in a chmod-step trace is the chmod itself. -/
theorem stepChmod_trace_shape {S : Type} (F : OsIface S) (isUnix : Bool) (outDir : Path)
    (st : ExtState S) (e : Entry) (c : OsCall)
    (h : c ∈ (stepChmod F isUnix outDir st e).1) :
    c = .chmod (entryDest outDir e.name) e.mode := by
  cases isUnix with
  | false => simp [stepChmod] at h
  | true =>
    rcases hc : F.chmod st.fs (entryDest outDir e.name) e.mode with ⟨s', r⟩
    rw [stepChmod_unix _ _ _ _ _ _ hc] at h
    simpa using h

/-- Rewrites an OS oracle so that directory-creation calls that would
report `AlreadyExists` succeed instead; all other calls are untouched. -/
def absorbAE (O : OsCall → OsResult) : OsCall → OsResult := fun c =>
  match c, O c with
  | .createDirAll _, .err er => if er.kind = .alreadyExists then .ok else .err er
  | .createDir _, .err er => if er.kind = .alreadyExists then .ok else .err er
  | _, r => r

/-- The parent step cannot tell an `AlreadyExists` failure from success. -/
theorem stepParent_absorbAE (O : OsCall → OsResult) (outDir : Path) (st : ExtState Unit)
    (name : String) :
    stepParent (oracleIface (absorbAE O)) outDir st name =
      stepParent (oracleIface O) outDir st name := by
  by_cases hne : (entryParents name).isEmpty = true
  · rw [stepParent_empty _ _ _ _ hne, stepParent_empty _ _ _ _ hne]
  · have hne' : (entryParents name).isEmpty = false := by simpa using hne
    by_cases hmem : (outDir ++ entryParents name) ∈ st.created
    · rw [stepParent_mem _ _ _ _ hne' hmem, stepParent_mem _ _ _ _ hne' hmem]
    · rcases hres : O (.createDirAll (outDir ++ entryParents name)) with _ | er
      · have h1 : (oracleIface O).createDirAll st.fs (outDir ++ entryParents name) =
            ((), .ok) := by simp [oracleIface, hres]
        have h2 : (oracleIface (absorbAE O)).createDirAll st.fs
            (outDir ++ entryParents name) = ((), .ok) := by
          simp [oracleIface, absorbAE, hres]
        rw [stepParent_new_ok _ _ _ _ _ hne' hmem h1,
          stepParent_new_ok _ _ _ _ _ hne' hmem h2]
      · have h1 : (oracleIface O).createDirAll st.fs (outDir ++ entryParents name) =
            ((), .err er) := by simp [oracleIface, hres]
        by_cases hk : er.kind = .alreadyExists
        · have h2 : (oracleIface (absorbAE O)).createDirAll st.fs
              (outDir ++ entryParents name) = ((), .ok) := by
            simp [oracleIface, absorbAE, hres, hk]
          rw [stepParent_new_errAE _ _ _ _ _ _ hne' hmem h1 hk,
            stepParent_new_ok _ _ _ _ _ hne' hmem h2]
        · have h2 : (oracleIface (absorbAE O)).createDirAll st.fs
              (outDir ++ entryParents name) = ((), .err er) := by
            simp [oracleIface, absorbAE, hres, hk]
          rw [stepParent_new_errFatal _ _ _ _ _ _ hne' hmem h1 hk,
            stepParent_new_errFatal _ _ _ _ _ _ hne' hmem h2 hk]

/-- The node step cannot tell an `AlreadyExists` failure of `create_dir`
from success, and its file branch is untouched by the absorption. -/
theorem stepNode_absorbAE (O : OsCall → OsResult) (outDir : Path) (st : ExtState Unit)
    (e : Entry) :
    stepNode (oracleIface (absorbAE O)) outDir st e =
      stepNode (oracleIface O) outDir st e := by
  by_cases hf : entryFinal e.name = ""
  · by_cases hmem : entryDest outDir e.name ∈ st.created
    · rw [stepNode_dir_mem _ _ _ _ hf hmem, stepNode_dir_mem _ _ _ _ hf hmem]
    · rcases hres : O (.createDir (entryDest outDir e.name)) with _ | er
      · have h1 : (oracleIface O).createDir st.fs (entryDest outDir e.name) =
            ((), .ok) := by simp [oracleIface, hres]
        have h2 : (oracleIface (absorbAE O)).createDir st.fs (entryDest outDir e.name) =
            ((), .ok) := by simp [oracleIface, absorbAE, hres]
        rw [stepNode_dir_new_ok _ _ _ _ _ hf hmem h1,
          stepNode_dir_new_ok _ _ _ _ _ hf hmem h2]
      · have h1 : (oracleIface O).createDir st.fs (entryDest outDir e.name) =
            ((), .err er) := by simp [oracleIface, hres]
        by_cases hk : er.kind = .alreadyExists
        · have h2 : (oracleIface (absorbAE O)).createDir st.fs (entryDest outDir e.name) =
              ((), .ok) := by simp [oracleIface, absorbAE, hres, hk]
          rw [stepNode_dir_new_errAE _ _ _ _ _ _ hf hmem h1 hk,
            stepNode_dir_new_ok _ _ _ _ _ hf hmem h2]
        · have h2 : (oracleIface (absorbAE O)).createDir st.fs (entryDest outDir e.name) =
              ((), .err er) := by simp [oracleIface, absorbAE, hres, hk]
          rw [stepNode_dir_new_errFatal _ _ _ _ _ _ hf hmem h1 hk,
            stepNode_dir_new_errFatal _ _ _ _ _ _ hf hmem h2 hk]
  · rcases hres : O (.openFile (entryDest outDir e.name)) with _ | er
    · have h1 : (oracleIface O).openFile st.fs (entryDest outDir e.name) =
          ((), .ok) := by simp [oracleIface, hres]
      have h2 : (oracleIface (absorbAE O)).openFile st.fs (entryDest outDir e.name) =
          ((), .ok) := by simp [oracleIface, absorbAE, hres]
      rcases hres2 : O (.copyFile (entryDest outDir e.name)) with _ | er2
      · have h3 : (oracleIface O).copyData () (entryDest outDir e.name) e.content =
            ((), .ok) := by simp [oracleIface, hres2]
        have h4 : (oracleIface (absorbAE O)).copyData () (entryDest outDir e.name)
            e.content = ((), .ok) := by simp [oracleIface, absorbAE, hres2]
        rw [stepNode_file_ok _ _ _ _ _ _ hf h1 h3, stepNode_file_ok _ _ _ _ _ _ hf h2 h4]
      · have h3 : (oracleIface O).copyData () (entryDest outDir e.name) e.content =
            ((), .err er2) := by simp [oracleIface, hres2]
        have h4 : (oracleIface (absorbAE O)).copyData () (entryDest outDir e.name)
            e.content = ((), .err er2) := by simp [oracleIface, absorbAE, hres2]
        rw [stepNode_file_copyErr _ _ _ _ _ _ _ hf h1 h3,
          stepNode_file_copyErr _ _ _ _ _ _ _ hf h2 h4]
    · have h1 : (oracleIface O).openFile st.fs (entryDest outDir e.name) =
          ((), .err er) := by simp [oracleIface, hres]
      have h2 : (oracleIface (absorbAE O)).openFile st.fs (entryDest outDir e.name) =
          ((), .err er) := by simp [oracleIface, absorbAE, hres]
      rw [stepNode_file_openErr _ _ _ _ _ _ hf h1, stepNode_file_openErr _ _ _ _ _ _ hf h2]

/-- The whole run behaves under an oracle exactly as under the oracle with
`AlreadyExists` directory-creation failures turned into successes. -/
theorem runExtract_absorbAE (O : OsCall → OsResult) (isUnix : Bool) (outDir : Path)
    (es : List Entry) :
    runExtract (oracleIface (absorbAE O)) isUnix outDir () es =
      runExtract (oracleIface O) isUnix outDir () es := by
  have hpe : ∀ (st : ExtState Unit) e,
      processEntry (oracleIface (absorbAE O)) isUnix outDir st e =
        processEntry (oracleIface O) isUnix outDir st e := by
    intro st e
    unfold processEntry
    rw [stepParent_absorbAE]
    congr 1
    funext st1
    rw [stepNode_absorbAE]
    cases isUnix with
    | false => rfl
    | true => rfl
  have hre : ∀ (es : List Entry) (st : ExtState Unit),
      runEntries (oracleIface (absorbAE O)) isUnix outDir st es =
        runEntries (oracleIface O) isUnix outDir st es := by
    intro es
    induction es with
    | nil => intro st; rfl
    | cons e es ih =>
      intro st
      simp only [runEntries, hpe st e, ih]
  exact hre es ⟨[], ()⟩

/-- If an entry's processing issues a `create_dir_all` whose oracle answer
is a non-`AlreadyExists` error, the entry aborts at once with the
corresponding panic, the failing call being the only call made. -/
theorem processEntry_createDirAll_fatal (O : OsCall → OsResult) (isUnix : Bool)
    (outDir : Path) (st : ExtState Unit) (e : Entry) (p : Path) (k : IOErrorKind) (m : String)
    (hmem : OsCall.createDirAll p ∈ (processEntry (oracleIface O) isUnix outDir st e).1)
    (hres : O (.createDirAll p) = .err ⟨k, m⟩) (hk : ¬ k = .alreadyExists) :
    processEntry (oracleIface O) isUnix outDir st e =
      ([.createDirAll p], .error (.createDirAllFailed p ⟨k, m⟩)) := by
  unfold processEntry at hmem ⊢
  rcases andThen_trace_mem _ _ _ hmem with hin | ⟨st1, hok1, hin⟩
  · obtain ⟨hceq, hne', hmemc⟩ := stepParent_trace_mem _ _ _ _ _ hin
    injection hceq with hp
    subst hp
    have h1 : (oracleIface O).createDirAll st.fs (outDir ++ entryParents e.name) =
        ((), .err ⟨k, m⟩) := by simp [oracleIface, hres]
    rw [stepParent_new_errFatal _ _ _ _ _ _ hne' hmemc h1 hk, andThen_errLeft]
  · rcases andThen_trace_mem _ _ _ hin with hin2 | ⟨st2, hok2, hin2⟩
    · rcases stepNode_trace_shape _ _ _ _ _ hin2 with h | h | h <;> exact OsCall.noConfusion h
    · exact absurd (stepChmod_trace_shape _ _ _ _ _ _ hin2) (fun h => OsCall.noConfusion h)

/-- If an entry's processing issues a `create_dir` whose oracle answer is
a non-`AlreadyExists` error, the entry aborts at once with the
corresponding panic, the failing call being the last call made. -/
theorem processEntry_createDir_fatal (O : OsCall → OsResult) (isUnix : Bool)
    (outDir : Path) (st : ExtState Unit) (e : Entry) (p : Path) (k : IOErrorKind) (m : String)
    (hmem : OsCall.createDir p ∈ (processEntry (oracleIface O) isUnix outDir st e).1)
    (hres : O (.createDir p) = .err ⟨k, m⟩) (hk : ¬ k = .alreadyExists) :
    ∃ t0, processEntry (oracleIface O) isUnix outDir st e =
      (t0 ++ [.createDir p], .error (.createDirFailed p ⟨k, m⟩)) := by
  unfold processEntry at hmem ⊢
  rcases andThen_trace_mem _ _ _ hmem with hin | ⟨st1, hok1, hin⟩
  · obtain ⟨hceq, -, -⟩ := stepParent_trace_mem _ _ _ _ _ hin
    exact absurd hceq (fun h => OsCall.noConfusion h)
  · rcases andThen_trace_mem _ _ _ hin with hin2 | ⟨st2, hok2, hin2⟩
    · obtain ⟨hp, hf, hmemc⟩ := stepNode_createDir_mem _ _ _ _ _ hin2
      subst hp
      have h1 : (oracleIface O).createDir st1.fs (entryDest outDir e.name) =
          ((), .err ⟨k, m⟩) := by simp [oracleIface, hres]
      have hsp : stepParent (oracleIface O) outDir st e.name =
          ((stepParent (oracleIface O) outDir st e.name).1, .ok st1) := by
        rw [← hok1]
      rw [hsp, andThen_okLeft,
        stepNode_dir_new_errFatal _ _ _ _ _ _ hf hmemc h1 hk, andThen_errLeft]
      exact ⟨(stepParent (oracleIface O) outDir st e.name).1, rfl⟩
    · exact absurd (stepChmod_trace_shape _ _ _ _ _ _ hin2) (fun h => OsCall.noConfusion h)

/-- Run-level escalation for `create_dir_all`: a fatal parent-creation
failure aborts the whole remaining run at that very call. -/
theorem runEntries_createDirAll_fatal (O : OsCall → OsResult) (isUnix : Bool)
    (outDir : Path) :
    ∀ (es : List Entry) (st : ExtState Unit) (p : Path) (k : IOErrorKind) (m : String),
      OsCall.createDirAll p ∈ (runEntries (oracleIface O) isUnix outDir st es).1 →
      O (.createDirAll p) = .err ⟨k, m⟩ → ¬ k = .alreadyExists →
      (runEntries (oracleIface O) isUnix outDir st es).2 =
        .error (.createDirAllFailed p ⟨k, m⟩) ∧
      (runEntries (oracleIface O) isUnix outDir st es).1.getLast? =
        some (.createDirAll p) := by
  intro es
  induction es with
  | nil => intro st p k m hmem _ _; simp [runEntries] at hmem
  | cons e es ih =>
    intro st p k m hmem hres hk
    rw [runEntries_cons_eq] at hmem ⊢
    rcases hpe : processEntry (oracleIface O) isUnix outDir st e with ⟨t1, r1⟩
    cases r1 with
    | error q =>
      rw [hpe] at hmem
      rw [andThen_errLeft] at hmem ⊢
      have heq := processEntry_createDirAll_fatal O isUnix outDir st e p k m
        (by rw [hpe]; exact hmem) hres hk
      rw [hpe] at heq
      simp only [Prod.mk.injEq, Except.error.injEq] at heq
      refine ⟨by simp [heq.2], by simp [heq.1]⟩
    | ok st1 =>
      rw [hpe] at hmem
      rw [andThen_okLeft] at hmem ⊢
      rcases List.mem_append.mp hmem with hin | hin
      · have heq := processEntry_createDirAll_fatal O isUnix outDir st e p k m
          (by rw [hpe]; exact hin) hres hk
        rw [hpe] at heq
        simp at heq
      · obtain ⟨hout, hlast⟩ := ih st1 p k m hin hres hk
        refine ⟨hout, ?_⟩
        rw [List.getLast?_append_of_ne_nil, hlast]
        intro he
        rw [he] at hlast
        cases hlast

/-- Run-level escalation for `create_dir`: a fatal directory-entry
creation failure aborts the whole remaining run at that very call. -/
theorem runEntries_createDir_fatal (O : OsCall → OsResult) (isUnix : Bool)
    (outDir : Path) :
    ∀ (es : List Entry) (st : ExtState Unit) (p : Path) (k : IOErrorKind) (m : String),
      OsCall.createDir p ∈ (runEntries (oracleIface O) isUnix outDir st es).1 →
      O (.createDir p) = .err ⟨k, m⟩ → ¬ k = .alreadyExists →
      (runEntries (oracleIface O) isUnix outDir st es).2 =
        .error (.createDirFailed p ⟨k, m⟩) ∧
      (runEntries (oracleIface O) isUnix outDir st es).1.getLast? =
        some (.createDir p) := by
  intro es
  induction es with
  | nil => intro st p k m hmem _ _; simp [runEntries] at hmem
  | cons e es ih =>
    intro st p k m hmem hres hk
    rw [runEntries_cons_eq] at hmem ⊢
    rcases hpe : processEntry (oracleIface O) isUnix outDir st e with ⟨t1, r1⟩
    cases r1 with
    | error q =>
      rw [hpe] at hmem
      rw [andThen_errLeft] at hmem ⊢
      obtain ⟨t0, heq⟩ := processEntry_createDir_fatal O isUnix outDir st e p k m
        (by rw [hpe]; exact hmem) hres hk
      rw [hpe] at heq
      simp only [Prod.mk.injEq, Except.error.injEq] at heq
      refine ⟨by simp [heq.2], by simp [heq.1]⟩
    | ok st1 =>
      rw [hpe] at hmem
      rw [andThen_okLeft] at hmem ⊢
      rcases List.mem_append.mp hmem with hin | hin
      · obtain ⟨t0, heq⟩ := processEntry_createDir_fatal O isUnix outDir st e p k m
          (by rw [hpe]; exact hin) hres hk
        rw [hpe] at heq
        simp at heq
      · obtain ⟨hout, hlast⟩ := ih st1 p k m hin hres hk
        refine ⟨hout, ?_⟩
        rw [List.getLast?_append_of_ne_nil, hlast]
        intro he
        rw [he] at hlast
        cases hlast

/-- C1: during extraction, a directory-creation failure of kind
`AlreadyExists` — whether from an entry's parent chain (`create_dir_all`)
or from a pure directory entry (`create_dir`) — is silently ignored: the
run is identical to the run in which those calls succeeded.  A
directory-creation failure of any other kind immediately aborts the
entire run at that call with the corresponding panic. -/
theorem c1_dir_creation_failure_policy (O : OsCall → OsResult) (isUnix : Bool)
    (outDir : Path) (es : List Entry) :
    runExtract (oracleIface (absorbAE O)) isUnix outDir () es =
      runExtract (oracleIface O) isUnix outDir () es ∧
    (∀ p k m, OsCall.createDirAll p ∈ (runExtract (oracleIface O) isUnix outDir () es).1 →
      O (.createDirAll p) = .err ⟨k, m⟩ → ¬ k = .alreadyExists →
      (runExtract (oracleIface O) isUnix outDir () es).2 =
        .error (.createDirAllFailed p ⟨k, m⟩) ∧
      (runExtract (oracleIface O) isUnix outDir () es).1.getLast? =
        some (.createDirAll p)) ∧
    (∀ p k m, OsCall.createDir p ∈ (runExtract (oracleIface O) isUnix outDir () es).1 →
      O (.createDir p) = .err ⟨k, m⟩ → ¬ k = .alreadyExists →
      (runExtract (oracleIface O) isUnix outDir () es).2 =
        .error (.createDirFailed p ⟨k, m⟩) ∧
      (runExtract (oracleIface O) isUnix outDir () es).1.getLast? =
        some (.createDir p)) :=
  ⟨runExtract_absorbAE O isUnix outDir es,
    fun p k m hmem hres hk =>
      runEntries_createDirAll_fatal O isUnix outDir es ⟨[], ()⟩ p k m hmem hres hk,
    fun p k m hmem hres hk =>
      runEntries_createDir_fatal O isUnix outDir es ⟨[], ()⟩ p k m hmem hres hk⟩

/-- The failure oracle for the C1 witness: the directory entry's own
`create_dir` fails with `NotFound`, everything else succeeds. -/
def c1Oracle : OsCall → OsResult
  | .createDir _ => .err ⟨.notFound, "No such file or directory"⟩
  | _ => .ok

/-- Witness for C1: tolerance instantiated, and a concrete fatal
`create_dir` failure aborting the run at that call. -/
theorem c1_witness :
    runExtract (oracleIface (absorbAE c1Oracle)) true ["out"] () [⟨"d/", 493, []⟩] =
      runExtract (oracleIface c1Oracle) true ["out"] () [⟨"d/", 493, []⟩] ∧
    (runExtract (oracleIface c1Oracle) true ["out"] () [⟨"d/", 493, []⟩]).2 =
      .error (.createDirFailed ["out", "d", ""] ⟨.notFound, "No such file or directory"⟩) ∧
    (runExtract (oracleIface c1Oracle) true ["out"] () [⟨"d/", 493, []⟩]).1.getLast? =
      some (.createDir ["out", "d", ""]) := by
  have h := c1_dir_creation_failure_policy c1Oracle true ["out"] [⟨"d/", 493, []⟩]
  have h2 := h.2.2 ["out", "d", ""] .notFound "No such file or directory"
    (by decide) rfl (by decide)
  exact ⟨h.1, h2.1, h2.2⟩

/-! ## C7: permission bits after extraction -/

/-- Normalization distributes over concatenation. -/
theorem normP_append (p q : Path) : normP (p ++ q) = normP p ++ normP q := by
  simp [normP]

/-- The `create_dir_all` walk only ever fails with a non-`AlreadyExists`
kind. -/
theorem mkDirsGo_err_kind (l : List String) (fs : FS) (pre : Path) (fs₂ : FS) (er : IOError)
    (h : mkDirsGo fs pre l = (fs₂, .err er)) : er.kind = .other := by
  induction l generalizing fs pre with
  | nil => simp [mkDirsGo] at h
  | cons c cs ih =>
    rcases hg : fsGet fs (pre ++ [c]) with _ | nd
    · simp only [mkDirsGo, hg] at h
      exact ih _ _ h
    · cases nd with
      | dir m =>
        simp only [mkDirsGo, hg] at h
        exact ih _ _ h
      | file cont m =>
        simp only [mkDirsGo, hg, Prod.mk.injEq, OsResult.err.injEq] at h
        rw [← h.2]

/-- The `create_dir_all` semantics never reports `AlreadyExists`. -/
theorem createDirAllFS_err_kind (fs : FS) (p : Path) (fs₂ : FS) (er : IOError)
    (h : createDirAllFS fs p = (fs₂, .err er)) : er.kind = .other :=
  mkDirsGo_err_kind _ _ _ _ _ h

/-- A successful `create_dir_all` leaves its (non-root) target present. -/
theorem createDirAllFS_ok_exists (fs : FS) (p : Path) (fs₂ : FS)
    (h : createDirAllFS fs p = (fs₂, .ok)) (hne : normP p ≠ []) :
    ∃ n, fsGet fs₂ p = some n := by
  have h' : mkDirsGo fs [] (normP p) = (fs₂, .ok) := h
  have h2 := mkDirsGo_ok_exists (normP p) fs [] (by rw [h']) hne
  rw [h'] at h2
  rcases hg : fsGet fs₂ (normP p) with _ | n
  · rw [fsGet_normP] at hg
    have : fsGet fs₂ ([] ++ normP p) = fsGet fs₂ p := by
      rw [List.nil_append, fsGet_normP]
    rw [this, hg] at h2
    cases h2 rfl
  · rw [fsGet_normP] at hg
    exact ⟨n, hg⟩

/-- A successful `create_dir` leaves the fresh directory at its target. -/
theorem createDirFS_ok_exists (fs : FS) (p : Path) (fs₂ : FS)
    (h : createDirFS fs p = (fs₂, .ok)) :
    fsGet fs₂ p = some (.dir none) := by
  unfold createDirFS at h
  dsimp only at h
  split at h
  · simp at h
  · split at h
    · simp only [Prod.mk.injEq] at h
      rw [← h.1, ← fsGet_normP, fsGet_fsSet]
      simp [normP_idem]
    · split at h
      · simp only [Prod.mk.injEq] at h
        rw [← h.1, ← fsGet_normP, fsGet_fsSet]
        simp [normP_idem]
      · simp at h
      · simp at h

/-- A `create_dir` reporting `AlreadyExists` means the target already
exists and the filesystem is untouched. -/
theorem createDirFS_errAE_exists (fs : FS) (p : Path) (fs₂ : FS) (er : IOError)
    (h : createDirFS fs p = (fs₂, .err er)) (hk : er.kind = .alreadyExists) :
    fs₂ = fs ∧ ∃ n, fsGet fs p = some n := by
  unfold createDirFS at h
  dsimp only at h
  split at h
  next n hg =>
    simp only [Prod.mk.injEq] at h
    rw [fsGet_normP] at hg
    exact ⟨h.1.symm, n, hg⟩
  · split at h
    · simp at h
    · split at h
      · simp at h
      · simp only [Prod.mk.injEq, OsResult.err.injEq] at h
        rw [← h.2] at hk
        cases hk
      · simp only [Prod.mk.injEq, OsResult.err.injEq] at h
        rw [← h.2] at hk
        cases hk

/-- A successful open leaves a regular file at the target. -/
theorem openFileFS_ok_file (fs : FS) (p : Path) (fs₂ : FS)
    (h : openFileFS fs p = (fs₂, .ok)) :
    ∃ c m, fsGet fs₂ p = some (.file c m) := by
  unfold openFileFS at h
  dsimp only at h
  split at h
  next c m hg =>
    simp only [Prod.mk.injEq] at h
    rw [fsGet_normP] at hg
    exact ⟨c, m, h.1 ▸ hg⟩
  · simp at h
  · split at h
    · simp only [Prod.mk.injEq] at h
      refine ⟨[], none, ?_⟩
      rw [← h.1, ← fsGet_normP, fsGet_fsSet]
      simp [normP_idem]
    · split at h
      · simp only [Prod.mk.injEq] at h
        refine ⟨[], none, ?_⟩
        rw [← h.1, ← fsGet_normP, fsGet_fsSet]
        simp [normP_idem]
      · simp at h
      · simp at h

/-- A successful copy leaves a regular file at the target. -/
theorem copyDataFS_ok_file (fs : FS) (p : Path) (d : List Nat) (fs₂ : FS)
    (h : copyDataFS fs p d = (fs₂, .ok)) :
    ∃ c m, fsGet fs₂ p = some (.file c m) := by
  unfold copyDataFS at h
  split at h
  next old m hg =>
    simp only [Prod.mk.injEq] at h
    refine ⟨d ++ old.drop d.length, m, ?_⟩
    rw [← h.1, fsGet_fsSet]
    simp
  · simp at h

/-- Copy and chmod preserve the presence of a node at every key. -/
theorem copyDataFS_isSome (fs : FS) (p : Path) (d : List Nat) (q : Path) (n : Node)
    (h : fsGet fs q = some n) : ∃ n', fsGet (copyDataFS fs p d).1 q = some n' := by
  by_cases he : normP p = normP q
  · unfold copyDataFS
    split
    next old m hg =>
      rw [fsGet_fsSet]
      simp [he]
    · exact ⟨n, h⟩
  · rw [fsGet_copyDataFS_ne fs p d q he]
    exact ⟨n, h⟩

/-- Chmod preserves the presence of a node at every key. -/
theorem chmodFS_isSome (ok : Path → Bool) (fs : FS) (p : Path) (mode : Nat)
    (q : Path) (n : Node) (h : fsGet fs q = some n) :
    ∃ n', fsGet (chmodFS ok fs p mode).1 q = some n' := by
  by_cases he : normP p = normP q
  · unfold chmodFS
    split
    · split
      · rw [fsGet_fsSet]; simp [he]
      · rw [fsGet_fsSet]; simp [he]
      · exact ⟨n, h⟩
    · exact ⟨n, h⟩
  · rw [fsGet_chmodFS_ne ok fs p mode q he]
    exact ⟨n, h⟩

/-- A permitted chmod of an existing node records exactly the requested
bits on it. -/
theorem chmodFS_sets (ok : Path → Bool) (fs : FS) (p : Path) (mode : Nat) (n : Node)
    (hok : ok p = true) (hg : fsGet fs p = some n) :
    ∃ n', fsGet (chmodFS ok fs p mode).1 p = some n' ∧ n'.modeBits = some mode := by
  cases n with
  | file c m =>
    rw [chmodFS_at_file ok fs p mode c m hok hg]
    refine ⟨.file c (some mode), ?_, rfl⟩
    rw [fsGet_fsSet]
    simp
  | dir m =>
    rw [chmodFS_at_dir ok fs p mode m hok hg]
    refine ⟨.dir (some mode), ?_, rfl⟩
    rw [fsGet_fsSet]
    simp

/-- The extraction-run invariant on the concrete filesystem: every path
recorded in `created_paths` denotes an existing node. -/
def InvFS (st : ExtState FS) : Prop :=
  ∀ p ∈ st.created, ∃ n, fsGet st.fs p = some n

/-- The parent step maintains the invariant (under a materialized output
root). -/
theorem stepParent_inv (ok : Path → Bool) (outDir : Path) (st st1 : ExtState FS)
    (name : String) (t1 : List OsCall)
    (hroot : normP outDir ≠ [])
    (hsp : stepParent (fsIface ok) outDir st name = (t1, .ok st1))
    (hinv : InvFS st) : InvFS st1 := by
  by_cases hne : (entryParents name).isEmpty = true
  · rw [stepParent_empty _ _ _ _ hne] at hsp
    simp only [Prod.mk.injEq, Except.ok.injEq] at hsp
    rw [← hsp.2]
    exact hinv
  · have hne' : (entryParents name).isEmpty = false := by simpa using hne
    by_cases hmem : (outDir ++ entryParents name) ∈ st.created
    · rw [stepParent_mem _ _ _ _ hne' hmem] at hsp
      simp only [Prod.mk.injEq, Except.ok.injEq] at hsp
      rw [← hsp.2]
      exact hinv
    · rcases hc : (fsIface ok).createDirAll st.fs (outDir ++ entryParents name) with ⟨s2, res⟩
      have hc' : createDirAllFS st.fs (outDir ++ entryParents name) = (s2, res) := hc
      cases res with
      | ok =>
        rw [stepParent_new_ok _ _ _ _ _ hne' hmem hc] at hsp
        simp only [Prod.mk.injEq, Except.ok.injEq] at hsp
        rw [← hsp.2]
        intro p hp
        rcases List.mem_cons.mp hp with hp | hp
        · subst hp
          have hnn : normP (outDir ++ entryParents name) ≠ [] := by
            rw [normP_append]
            intro hcontra
            exact hroot (List.append_eq_nil.mp hcontra).1
          exact createDirAllFS_ok_exists st.fs _ s2 hc' hnn
        · obtain ⟨n, hn⟩ := hinv p hp
          have := fsGet_createDirAllFS st.fs (outDir ++ entryParents name) p n hn
          rw [hc'] at this
          exact ⟨n, this⟩
      | err er =>
        have hkind := createDirAllFS_err_kind st.fs _ s2 er hc'
        by_cases hk : er.kind = .alreadyExists
        · rw [hkind] at hk
          cases hk
        · rw [stepParent_new_errFatal _ _ _ _ _ _ hne' hmem hc hk] at hsp
          simp at hsp

/-- The node step maintains the invariant. -/
theorem stepNode_inv (ok : Path → Bool) (outDir : Path) (st st2 : ExtState FS)
    (e : Entry) (t2 : List OsCall)
    (hsn : stepNode (fsIface ok) outDir st e = (t2, .ok st2))
    (hinv : InvFS st) : InvFS st2 := by
  by_cases hf : entryFinal e.name = ""
  · by_cases hmem : entryDest outDir e.name ∈ st.created
    · rw [stepNode_dir_mem _ _ _ _ hf hmem] at hsn
      simp only [Prod.mk.injEq, Except.ok.injEq] at hsn
      rw [← hsn.2]
      exact hinv
    · rcases hc : (fsIface ok).createDir st.fs (entryDest outDir e.name) with ⟨s2, res⟩
      have hc' : createDirFS st.fs (entryDest outDir e.name) = (s2, res) := hc
      cases res with
      | ok =>
        rw [stepNode_dir_new_ok _ _ _ _ _ hf hmem hc] at hsn
        simp only [Prod.mk.injEq, Except.ok.injEq] at hsn
        rw [← hsn.2]
        intro p hp
        rcases List.mem_cons.mp hp with hp | hp
        · subst hp
          exact ⟨.dir none, createDirFS_ok_exists st.fs _ s2 hc'⟩
        · obtain ⟨n, hn⟩ := hinv p hp
          have := fsGet_createDirFS st.fs (entryDest outDir e.name) p n hn
          rw [hc'] at this
          exact ⟨n, this⟩
      | err er =>
        by_cases hk : er.kind = .alreadyExists
        · rw [stepNode_dir_new_errAE _ _ _ _ _ _ hf hmem hc hk] at hsn
          simp only [Prod.mk.injEq, Except.ok.injEq] at hsn
          rw [← hsn.2]
          obtain ⟨hfs, hex⟩ := createDirFS_errAE_exists st.fs _ s2 er hc' hk
          subst hfs
          intro p hp
          rcases List.mem_cons.mp hp with hp | hp
          · subst hp
            exact hex
          · exact hinv p hp
        · rw [stepNode_dir_new_errFatal _ _ _ _ _ _ hf hmem hc hk] at hsn
          simp at hsn
  · rcases ho : (fsIface ok).openFile st.fs (entryDest outDir e.name) with ⟨s', res⟩
    have ho' : openFileFS st.fs (entryDest outDir e.name) = (s', res) := ho
    cases res with
    | err er =>
      rw [stepNode_file_openErr _ _ _ _ _ _ hf ho] at hsn
      simp at hsn
    | ok =>
      rcases hcp : (fsIface ok).copyData s' (entryDest outDir e.name) e.content with ⟨s'', res2⟩
      have hcp' : copyDataFS s' (entryDest outDir e.name) e.content = (s'', res2) := hcp
      cases res2 with
      | err er =>
        rw [stepNode_file_copyErr _ _ _ _ _ _ _ hf ho hcp] at hsn
        simp at hsn
      | ok =>
        rw [stepNode_file_ok _ _ _ _ _ _ hf ho hcp] at hsn
        simp only [Prod.mk.injEq, Except.ok.injEq] at hsn
        rw [← hsn.2]
        intro p hp
        obtain ⟨n, hn⟩ := hinv p hp
        have h1 := fsGet_openFileFS st.fs (entryDest outDir e.name) p n hn
        rw [ho'] at h1
        obtain ⟨n', hn'⟩ := copyDataFS_isSome s' (entryDest outDir e.name) e.content p n h1
        rw [hcp'] at hn'
        exact ⟨n', hn'⟩

/-- The chmod step maintains the invariant. -/
theorem stepChmod_inv (ok : Path → Bool) (isUnix : Bool) (outDir : Path)
    (st st' : ExtState FS) (e : Entry) (t : List OsCall)
    (hsc : stepChmod (fsIface ok) isUnix outDir st e = (t, .ok st'))
    (hinv : InvFS st) : InvFS st' := by
  cases isUnix with
  | false =>
    rw [stepChmod_notUnix] at hsc
    simp only [Prod.mk.injEq, Except.ok.injEq] at hsc
    rw [← hsc.2]
    exact hinv
  | true =>
    rcases hch : (fsIface ok).chmod st.fs (entryDest outDir e.name) e.mode with ⟨s', r⟩
    have hch' : chmodFS ok st.fs (entryDest outDir e.name) e.mode = (s', r) := hch
    rw [stepChmod_unix _ _ _ _ _ _ hch] at hsc
    simp only [Prod.mk.injEq, Except.ok.injEq] at hsc
    rw [← hsc.2]
    intro p hp
    obtain ⟨n, hn⟩ := hinv p hp
    obtain ⟨n', hn'⟩ := chmodFS_isSome ok st.fs (entryDest outDir e.name) e.mode p n hn
    rw [hch'] at hn'
    exact ⟨n', hn'⟩

/-- One entry maintains the invariant. -/
theorem processEntry_inv (ok : Path → Bool) (isUnix : Bool) (outDir : Path)
    (st st' : ExtState FS) (e : Entry) (t : List OsCall)
    (hroot : normP outDir ≠ [])
    (hrun : processEntry (fsIface ok) isUnix outDir st e = (t, .ok st'))
    (hinv : InvFS st) : InvFS st' := by
  unfold processEntry at hrun
  obtain ⟨t1, st1, t23, hsp, hrest, -⟩ := andThen_ok _ _ _ _ hrun
  obtain ⟨t2, st2, t3, hsn, hsc, -⟩ := andThen_ok _ _ _ _ hrest
  exact stepChmod_inv ok isUnix outDir st2 st' e t3 hsc
    (stepNode_inv ok outDir st1 st2 e t2 hsn
      (stepParent_inv ok outDir st st1 e.name t1 hroot hsp hinv))

/-- On unix, a successfully processed entry ends with its destination
carrying exactly the entry's recorded mode bits. -/
theorem processEntry_sets_bits (ok : Path → Bool) (outDir : Path)
    (st st' : ExtState FS) (e : Entry) (t : List OsCall)
    (hroot : normP outDir ≠ [])
    (hrun : processEntry (fsIface ok) true outDir st e = (t, .ok st'))
    (hinv : InvFS st)
    (hok : ok (entryDest outDir e.name) = true) :
    ∃ n, fsGet st'.fs (entryDest outDir e.name) = some n ∧ n.modeBits = some e.mode := by
  unfold processEntry at hrun
  obtain ⟨t1, st1, t23, hsp, hrest, -⟩ := andThen_ok _ _ _ _ hrun
  obtain ⟨t2, st2, t3, hsn, hsc, -⟩ := andThen_ok _ _ _ _ hrest
  have hinv1 : InvFS st1 := stepParent_inv ok outDir st st1 e.name t1 hroot hsp hinv
  have hex2 : ∃ n, fsGet st2.fs (entryDest outDir e.name) = some n := by
    by_cases hf : entryFinal e.name = ""
    · by_cases hmem : entryDest outDir e.name ∈ st1.created
      · rw [stepNode_dir_mem _ _ _ _ hf hmem] at hsn
        simp only [Prod.mk.injEq, Except.ok.injEq] at hsn
        rw [← hsn.2]
        exact hinv1 _ hmem
      · rcases hc : (fsIface ok).createDir st1.fs (entryDest outDir e.name) with ⟨s2, res⟩
        have hc' : createDirFS st1.fs (entryDest outDir e.name) = (s2, res) := hc
        cases res with
        | ok =>
          rw [stepNode_dir_new_ok _ _ _ _ _ hf hmem hc] at hsn
          simp only [Prod.mk.injEq, Except.ok.injEq] at hsn
          rw [← hsn.2]
          exact ⟨.dir none, createDirFS_ok_exists st1.fs _ s2 hc'⟩
        | err er =>
          by_cases hk : er.kind = .alreadyExists
          · rw [stepNode_dir_new_errAE _ _ _ _ _ _ hf hmem hc hk] at hsn
            simp only [Prod.mk.injEq, Except.ok.injEq] at hsn
            rw [← hsn.2]
            obtain ⟨hfs, hex⟩ := createDirFS_errAE_exists st1.fs _ s2 er hc' hk
            subst hfs
            exact hex
          · rw [stepNode_dir_new_errFatal _ _ _ _ _ _ hf hmem hc hk] at hsn
            simp at hsn
    · rcases ho : (fsIface ok).openFile st1.fs (entryDest outDir e.name) with ⟨s', res⟩
      cases res with
      | err er =>
        rw [stepNode_file_openErr _ _ _ _ _ _ hf ho] at hsn
        simp at hsn
      | ok =>
        rcases hcp : (fsIface ok).copyData s' (entryDest outDir e.name) e.content
          with ⟨s'', res2⟩
        have hcp' : copyDataFS s' (entryDest outDir e.name) e.content = (s'', res2) := hcp
        cases res2 with
        | err er =>
          rw [stepNode_file_copyErr _ _ _ _ _ _ _ hf ho hcp] at hsn
          simp at hsn
        | ok =>
          rw [stepNode_file_ok _ _ _ _ _ _ hf ho hcp] at hsn
          simp only [Prod.mk.injEq, Except.ok.injEq] at hsn
          rw [← hsn.2]
          obtain ⟨c, m, hcm⟩ := copyDataFS_ok_file s' _ e.content s'' hcp'
          exact ⟨.file c m, hcm⟩
  rcases hch : (fsIface ok).chmod st2.fs (entryDest outDir e.name) e.mode with ⟨s3, r3⟩
  have hch' : chmodFS ok st2.fs (entryDest outDir e.name) e.mode = (s3, r3) := hch
  rw [stepChmod_unix _ _ _ _ _ _ hch] at hsc
  simp only [Prod.mk.injEq, Except.ok.injEq] at hsc
  rw [← hsc.2]
  obtain ⟨n, hn⟩ := hex2
  obtain ⟨n', hn', hbits⟩ := chmodFS_sets ok st2.fs _ e.mode n hok hn
  rw [hch'] at hn'
  exact ⟨n', hn', hbits⟩

/-- A successfully processed entry preserves every node stored at a key
other than its own destination. -/
theorem processEntry_preserves (ok : Path → Bool) (isUnix : Bool) (outDir : Path)
    (st st' : ExtState FS) (e : Entry) (t : List OsCall)
    (hrun : processEntry (fsIface ok) isUnix outDir st e = (t, .ok st'))
    (q : Path) (n : Node) (hne : ¬ normP q = normP (entryDest outDir e.name))
    (h : fsGet st.fs q = some n) : fsGet st'.fs q = some n := by
  unfold processEntry at hrun
  obtain ⟨t1, st1, t23, hsp, hrest, -⟩ := andThen_ok _ _ _ _ hrun
  obtain ⟨t2, st2, t3, hsn, hsc, -⟩ := andThen_ok _ _ _ _ hrest
  have h1 : fsGet st1.fs q = some n :=
    stepParent_ok_preserves ok outDir st st1 e.name t1 hsp q n h
  have h2 : fsGet st2.fs q = some n := by
    by_cases hf : entryFinal e.name = ""
    · by_cases hmem : entryDest outDir e.name ∈ st1.created
      · rw [stepNode_dir_mem _ _ _ _ hf hmem] at hsn
        simp only [Prod.mk.injEq, Except.ok.injEq] at hsn
        rw [← hsn.2]
        exact h1
      · rcases hc : (fsIface ok).createDir st1.fs (entryDest outDir e.name) with ⟨s2, res⟩
        have hc' : createDirFS st1.fs (entryDest outDir e.name) = (s2, res) := hc
        cases res with
        | ok =>
          rw [stepNode_dir_new_ok _ _ _ _ _ hf hmem hc] at hsn
          simp only [Prod.mk.injEq, Except.ok.injEq] at hsn
          rw [← hsn.2]
          have := fsGet_createDirFS st1.fs (entryDest outDir e.name) q n h1
          rw [hc'] at this
          exact this
        | err er =>
          by_cases hk : er.kind = .alreadyExists
          · rw [stepNode_dir_new_errAE _ _ _ _ _ _ hf hmem hc hk] at hsn
            simp only [Prod.mk.injEq, Except.ok.injEq] at hsn
            rw [← hsn.2]
            have := fsGet_createDirFS st1.fs (entryDest outDir e.name) q n h1
            rw [hc'] at this
            exact this
          · rw [stepNode_dir_new_errFatal _ _ _ _ _ _ hf hmem hc hk] at hsn
            simp at hsn
    · rcases ho : (fsIface ok).openFile st1.fs (entryDest outDir e.name) with ⟨s', res⟩
      have ho' : openFileFS st1.fs (entryDest outDir e.name) = (s', res) := ho
      cases res with
      | err er =>
        rw [stepNode_file_openErr _ _ _ _ _ _ hf ho] at hsn
        simp at hsn
      | ok =>
        rcases hcp : (fsIface ok).copyData s' (entryDest outDir e.name) e.content
          with ⟨s'', res2⟩
        have hcp' : copyDataFS s' (entryDest outDir e.name) e.content = (s'', res2) := hcp
        cases res2 with
        | err er =>
          rw [stepNode_file_copyErr _ _ _ _ _ _ _ hf ho hcp] at hsn
          simp at hsn
        | ok =>
          rw [stepNode_file_ok _ _ _ _ _ _ hf ho hcp] at hsn
          simp only [Prod.mk.injEq, Except.ok.injEq] at hsn
          rw [← hsn.2]
          have hopen : fsGet s' q = some n := by
            have := fsGet_openFileFS st1.fs (entryDest outDir e.name) q n h1
            rw [ho'] at this
            exact this
          have := fsGet_copyDataFS_ne s' (entryDest outDir e.name) e.content q
            (fun hx => hne hx.symm)
          rw [hcp'] at this
          rw [this, hopen]
  cases isUnix with
  | false =>
    rw [stepChmod_notUnix] at hsc
    simp only [Prod.mk.injEq, Except.ok.injEq] at hsc
    rw [← hsc.2]
    exact h2
  | true =>
    rcases hch : (fsIface ok).chmod st2.fs (entryDest outDir e.name) e.mode with ⟨s3, r3⟩
    have hch' : chmodFS ok st2.fs (entryDest outDir e.name) e.mode = (s3, r3) := hch
    rw [stepChmod_unix _ _ _ _ _ _ hch] at hsc
    simp only [Prod.mk.injEq, Except.ok.injEq] at hsc
    rw [← hsc.2]
    have := fsGet_chmodFS_ne ok st2.fs (entryDest outDir e.name) e.mode q
      (fun hx => hne hx.symm)
    rw [hch'] at this
    rw [this, h2]

/-- The rest of a run preserves a node whose key no remaining entry
targets. -/
theorem runEntries_preserves (ok : Path → Bool) (isUnix : Bool) (outDir : Path) :
    ∀ (es : List Entry) (st : ExtState FS) (t : List OsCall) (st' : ExtState FS)
      (q : Path) (n : Node),
      runEntries (fsIface ok) isUnix outDir st es = (t, .ok st') →
      (∀ e ∈ es, ¬ normP q = normP (entryDest outDir e.name)) →
      fsGet st.fs q = some n → fsGet st'.fs q = some n := by
  intro es
  induction es with
  | nil =>
    intro st t st' q n hrun _ h
    simp only [runEntries, Prod.mk.injEq, Except.ok.injEq] at hrun
    rw [← hrun.2]
    exact h
  | cons e es ih =>
    intro st t st' q n hrun hne h
    obtain ⟨t1, st1, t2, hpe, hrest, -⟩ := runEntries_cons_ok _ _ _ _ _ _ _ _ hrun
    exact ih st1 t2 st' q n hrest (fun e' he' => hne e' (List.mem_cons_of_mem _ he'))
      (processEntry_preserves ok isUnix outDir st st1 e t1 hpe q n
        (hne e (List.mem_cons_self e es)) h)

/-- After a successful unix run over entries with pairwise distinct
destinations, every entry's destination carries its recorded mode bits. -/
theorem runEntries_bits (ok : Path → Bool) (outDir : Path)
    (hroot : normP outDir ≠ []) :
    ∀ (es : List Entry) (st : ExtState FS) (t : List OsCall) (st' : ExtState FS),
      runEntries (fsIface ok) true outDir st es = (t, .ok st') →
      InvFS st →
      (∀ e ∈ es, ok (entryDest outDir e.name) = true) →
      es.Pairwise (fun a b =>
        ¬ normP (entryDest outDir a.name) = normP (entryDest outDir b.name)) →
      ∀ e ∈ es, ∃ n, fsGet st'.fs (entryDest outDir e.name) = some n ∧
        n.modeBits = some e.mode := by
  intro es
  induction es with
  | nil => intro st t st' _ _ _ _ e he; exact absurd he (List.not_mem_nil e)
  | cons e0 es ih =>
    intro st t st' hrun hinv hok hpw e he
    obtain ⟨t1, st1, t2, hpe, hrest, -⟩ := runEntries_cons_ok _ _ _ _ _ _ _ _ hrun
    have hinv1 : InvFS st1 := processEntry_inv ok true outDir st st1 e0 t1 hroot hpe hinv
    rcases List.mem_cons.mp he with he0 | he
    · subst he0
      obtain ⟨n, hn, hbits⟩ := processEntry_sets_bits ok outDir st st1 e t1 hroot hpe hinv
        (hok e (List.mem_cons_self e es))
      refine ⟨n, ?_, hbits⟩
      exact runEntries_preserves ok true outDir es st1 t2 st' _ n hrest
        (fun e' he' => (List.pairwise_cons.mp hpw).1 e' he') hn
    · exact ih st1 t2 st' hrest hinv1 (fun e' he' => hok e' (List.mem_cons_of_mem _ he'))
        (List.pairwise_cons.mp hpw).2 e he

/-- C7 counterexample: an extraction run on a POSIX target completes
although the OS rejects the (silently ignored) chmod call, and the
materialized file then carries no recorded mode bits — the final bits do
not equal the archive entry's bits even though extraction completed. -/
theorem c7_counterexample :
    (runExtract (fsIface fun _ => false) true ["out"] [(["out"], Node.dir none)]
        [⟨"f", 420, [7]⟩]).2 =
      .ok ⟨[], [(["out"], Node.dir none), (["out", "f"], Node.file [7] none)]⟩ ∧
    fsGet [(["out"], Node.dir none), (["out", "f"], Node.file [7] none)]
      (entryDest ["out"] "f") = some (.file [7] none) ∧
    ¬ (Node.file [7] (none : Option Nat)).modeBits = some 420 :=
  ⟨rfl, rfl, by decide⟩

/-- C7 (amended): on a POSIX target, provided every permission-application
call succeeds (the OS can refuse one without aborting extraction, since
the result is discarded) and entries have pairwise distinct normalized
destinations under a materialized output root, after extraction completes
the permission bits of every entry's materialized node equal the bits
recorded in that entry; and for each entry the bits are applied only after
the entry's content is fully written (or its directory created): the chmod
is the last call in the entry's trace. -/
theorem c7_permission_bits (ok : Path → Bool) (outDir : Path) (s0 : FS)
    (es : List Entry) (t : List OsCall) (st' : ExtState FS)
    (hroot : normP outDir ≠ [])
    (hrun : runExtract (fsIface ok) true outDir s0 es = (t, .ok st'))
    (hok : ∀ e ∈ es, ok (entryDest outDir e.name) = true)
    (hdist : es.Pairwise (fun a b =>
      ¬ normP (entryDest outDir a.name) = normP (entryDest outDir b.name))) :
    (∀ e ∈ es, ∃ n, fsGet st'.fs (entryDest outDir e.name) = some n ∧
      n.modeBits = some e.mode) ∧
    (∀ (st st₁ : ExtState FS) (e : Entry) (t₁ : List OsCall),
      processEntry (fsIface ok) true outDir st e = (t₁, .ok st₁) →
      t₁.getLast? = some (.chmod (entryDest outDir e.name) e.mode)) := by
  constructor
  · exact runEntries_bits ok outDir hroot es ⟨[], s0⟩ t st' hrun
      (fun p hp => absurd hp (List.not_mem_nil p)) hok hdist
  · intro st st₁ e t₁ hpe
    unfold processEntry at hpe
    obtain ⟨ta, x, tb, hA, hB, rfl⟩ := andThen_ok _ _ _ _ hpe
    obtain ⟨tc, y, td, hC, hD, rfl⟩ := andThen_ok _ _ _ _ hB
    rcases hch : (fsIface ok).chmod y.fs (entryDest outDir e.name) e.mode with ⟨s3, r3⟩
    rw [stepChmod_unix _ _ _ _ _ _ hch] at hD
    simp only [Prod.mk.injEq, Except.ok.injEq] at hD
    rw [← hD.1]
    rw [List.getLast?_append_of_ne_nil, List.getLast?_append_of_ne_nil] <;> simp

/-- Witness for C7 (amended) on a concrete two-entry archive (a directory
and a file under it). -/
theorem c7_witness :
    (∃ n, fsGet [(["out"], Node.dir none), (["out", "srcdir"], Node.dir (some 493)),
        (["out", "srcdir", "f.c"], Node.file [7] (some 420))]
      (entryDest ["out"] "srcdir/") = some n ∧ n.modeBits = some 493) ∧
    (∃ n, fsGet [(["out"], Node.dir none), (["out", "srcdir"], Node.dir (some 493)),
        (["out", "srcdir", "f.c"], Node.file [7] (some 420))]
      (entryDest ["out"] "srcdir/f.c") = some n ∧ n.modeBits = some 420) := by
  have h := (c7_permission_bits (fun _ => true) ["out"] [(["out"], Node.dir none)]
    [⟨"srcdir/", 493, []⟩, ⟨"srcdir/f.c", 420, [7]⟩]
    [.createDirAll ["out", "srcdir"], .createDir ["out", "srcdir", ""],
      .chmod ["out", "srcdir", ""] 493, .openFile ["out", "srcdir", "f.c"],
      .copyFile ["out", "srcdir", "f.c"], .chmod ["out", "srcdir", "f.c"] 420]
    ⟨[["out", "srcdir", ""], ["out", "srcdir"]],
      [(["out"], Node.dir none), (["out", "srcdir"], Node.dir (some 493)),
        (["out", "srcdir", "f.c"], Node.file [7] (some 420))]⟩
    (by decide) rfl (fun e _ => rfl) (by decide)).1
  exact ⟨h ⟨"srcdir/", 493, []⟩ (by simp), h ⟨"srcdir/f.c", 420, [7]⟩ (by simp)⟩

end PcreBuild
